import Mathlib

/-!
Verification development for the `lodgen` LOD-generation pipeline.

The definitions below are a shallow embedding of the C++ sources under
`src/lodgen/`: `mesh_simplifier.cpp`, `texture_processor.cpp`,
`texture_atlas.cpp` and `lodgen.cpp`.  Pure functions of the source become
Lean functions; in-place mutation of the `aiScene` becomes explicit state
passing (each function returns the scene it would have mutated); fallible
C++ code returning `Result<T>` becomes `Except Error T`.

Machine-integer conventions: dimension and index arithmetic is modelled over
`Nat`/`Int`/`ℚ` exactly; the one place where 32-bit wrap-around is observable
on in-range inputs, the `nextPow2` bit-smearing helper of `texture_atlas.cpp`
(declared on `unsigned int`), keeps its `% 2^32` semantics.

External collaborators (the stb image codecs, the meshoptimizer kernels, the
assimp scene I/O and `GetEmbeddedTexture`) are out of scope per §6 of the
specification; each is modelled from the spec's contract by an executable
stand-in, marked `Modelled from the spec:` in its doc comment.
-/

set_option allowUnsafeReducibility true in
attribute [semireducible] Rat.mul Rat.div Rat.add Rat.sub Rat.neg Rat.inv Rat.floor Rat.ceil

namespace Lodgen

/-! ### Small list/string helpers used by the embedding -/

/-- Update the element at index `i` of a list (no-op when out of range),
the model of writing through an index into a C++ array. -/
def updateAt {α : Type} : List α → Nat → (α → α) → List α
  | [], _, _ => []
  | a :: l, 0, f => f a :: l
  | a :: l, n + 1, f => a :: updateAt l n f

/-- Enumerate a list with indices starting at `i`. -/
def enumFrom {α : Type} (i : Nat) : List α → List (Nat × α)
  | [] => []
  | a :: l => (i, a) :: enumFrom (i + 1) l

/-- Lookup in an association list by first component. -/
def lookupAssoc {β : Type} (m : List (String × β)) (k : String) : Option β :=
  (m.find? (fun kv => kv.1 == k)).map (·.2)

/-- Numeric value of a digit string (the model of `atoi` on a digit run). -/
def digitsVal (cs : List Char) : Nat :=
  cs.foldl (fun a c => a * 10 + (c.toNat - 48)) 0

/-- Leaf file name: the part of a path after the last slash
(`fs::path::filename`). -/
def baseName (s : String) : String :=
  ⟨(s.data.reverse.takeWhile (fun c => c ≠ '/')).reverse⟩

/-- File extension without the leading dot, as computed by
`loadExternalTexture` from `fs::path::extension` (empty for dotless names and
for leading-dot names). -/
def extNoDot (s : String) : String :=
  match (baseName s).data with
  | [] => ""
  | _ :: tl =>
    if tl.any (fun c => c = '.') then
      ⟨(tl.reverse.takeWhile (fun c => c ≠ '.')).reverse⟩
    else ""

/-- Extension with the leading dot (`fs::path::extension`), as used by the
orchestrator to rebuild output names. -/
def extDotted (s : String) : String :=
  if extNoDot s = "" then "" else "." ++ extNoDot s

/-- Stem of a path: leaf name without the extension (`fs::path::stem`). -/
def stemOf (s : String) : String :=
  let b := baseName s
  ⟨b.data.take (b.data.length - (extDotted s).data.length)⟩

/-- Path concatenation, the model of `fs::path::operator/` for the relative
paths this program joins. -/
def joinPath (a b : String) : String :=
  if a = "" then b else a ++ "/" ++ b

/-- Parse an assimp `*N` embedded-texture reference. -/
def parseStarRef (s : String) : Option Nat :=
  match s.data with
  | '*' :: rest =>
    if rest ≠ [] ∧ rest.all (fun c => c.isDigit) then some (digitsVal rest) else none
  | _ => none

/-! ### Error model (`types.hpp`) -/

/-- Error kinds of `lodgen::ErrorCode` in `types.hpp`. -/
inductive ErrorCode where
  | FileNotFound
  | UnsupportedFormat
  | ImportFailed
  | ExportFailed
  | SceneCopyFailed
  | TextureDecodeFailed
  | TextureResizeFailed
  | TextureEncodeFailed
  | TextureLoadFailed
  | AtlasBuildFailed
deriving DecidableEq

/-- Error value of `lodgen::Error` in `types.hpp`. -/
structure Error where
  code : ErrorCode
  message : String
deriving DecidableEq

/-! ### Image codec model

The pixel-level collaborators (`stb_image`, `stb_image_write`,
`stb_image_resize2`) are external per §6 of the spec.  They are modelled by a
tagged byte format: an encoded image is its tag (0 = PNG, 1 = JPEG followed by
the quality), its dimensions and its RGBA8 payload. -/

/-- Decoded RGBA8 image, the model of `lodgen::DecodedTexture`
(`texture_processor.hpp`). -/
structure DecodedTexture where
  width : Nat
  height : Nat
  pixels : List Nat
  formatHint : String
deriving DecidableEq

instance : Inhabited DecodedTexture := ⟨⟨0, 0, [], ""⟩⟩

/-- Modelled from the spec: the PNG encoder collaborator
(`stbi_write_png_to_func`); the blob is a tag byte, the dimensions and the
pixel payload. -/
def pngEncode (tex : DecodedTexture) : List Nat :=
  0 :: tex.width :: tex.height :: tex.pixels

/-- Modelled from the spec: the JPEG encoder collaborator
(`stbi_write_jpg_to_func`) at an explicit quality. -/
def jpgEncode (tex : DecodedTexture) (quality : Nat) : List Nat :=
  1 :: quality :: tex.width :: tex.height :: tex.pixels

/-- Modelled from the spec: the image decoder collaborator
(`stbi_load_from_memory`); recovers dimensions and pixels from either encoded
form and rejects malformed blobs. -/
def stbiLoadFromMemory (bytes : List Nat) : Option (Nat × Nat × List Nat) :=
  match bytes with
  | 0 :: w :: h :: px => if px.length = w * h * 4 then some (w, h, px) else none
  | 1 :: _ :: w :: h :: px => if px.length = w * h * 4 then some (w, h, px) else none
  | _ => none

/-- Modelled from the spec: the resampling collaborator
(`stbir_resize_uint8_linear`), as a nearest-neighbour stand-in producing a
`newW × newH × 4` pixel buffer. -/
def resamplePixels (src : DecodedTexture) (newW newH : Nat) : List Nat :=
  (List.range newH).flatMap fun y =>
    (List.range newW).flatMap fun x =>
      let sx := x * src.width / newW
      let sy := y * src.height / newH
      (List.range 4).map fun c => src.pixels.getD ((sy * src.width + sx) * 4 + c) 0

/-! ### Embedded textures (`aiTexture`) and the scene data model -/

/-- Payload of an `aiTexture`: either a compressed blob (`mHeight = 0`,
`pcData` = raw file bytes) or an uncompressed ARGB8888 texel rectangle. -/
inductive AiTexData where
  | blob (bytes : List Nat)
  | argb (w h : Nat) (texels : List (Nat × Nat × Nat × Nat))
deriving DecidableEq

/-- Model of assimp's `aiTexture`: payload, `achFormatHint` and `mFilename`. -/
structure AiTexture where
  data : AiTexData
  formatHint : String
  filename : String
deriving DecidableEq

instance : Inhabited AiTexture := ⟨⟨.blob [], "", ""⟩⟩

/-- One texture slot of a material: the path property plus the U/V mapping
modes (`aiTextureMapMode`; clamp is 1). -/
structure TexSlot where
  path : String
  mapModeU : Nat
  mapModeV : Nat
deriving DecidableEq

instance : Inhabited TexSlot := ⟨⟨"", 0, 0⟩⟩

/-- Number of texture semantic types iterated by the pipeline: the 20-element
`kTextureTypes` table of `texture_processor.hpp`.  Types are identified by
their position in that table (diffuse is 0). -/
def numTexTypes : Nat := 20

/-- Model of `aiMaterial`, restricted to what the pipeline reads and writes:
for each of the 20 types of `kTextureTypes`, the ordered slot list. -/
structure Material where
  slots : List (List TexSlot)
deriving DecidableEq

instance : Inhabited Material := ⟨⟨[]⟩⟩

/-- A bone: its ordered `{vertex_id, weight}` list (`aiBone::mWeights`). -/
structure Bone where
  weights : List (Nat × ℚ)
deriving DecidableEq

/-- Model of `aiMesh`, restricted to the attributes read and written by the
pipeline.  `primitiveTypes` is the assimp bitmask; `aiPrimitiveType_TRIANGLE`
is 4.  The UV and colour channel lists model the leading non-null channels of
`mTextureCoords` / `mColors`. -/
structure Mesh where
  primitiveTypes : Nat
  positions : List (ℚ × ℚ × ℚ)
  normals : Option (List (ℚ × ℚ × ℚ))
  tangents : Option (List (ℚ × ℚ × ℚ))
  bitangents : Option (List (ℚ × ℚ × ℚ))
  uv : List (List (ℚ × ℚ × ℚ))
  colors : List (List (ℚ × ℚ × ℚ × ℚ))
  faces : List (List Nat)
  materialIndex : Nat
  bones : List Bone
deriving DecidableEq

/-- Model of `aiScene`, restricted to the parts the pipeline touches. -/
structure Scene where
  meshes : List Mesh
  materials : List Material
  textures : List AiTexture
deriving DecidableEq

/-- Modelled from the spec: `aiScene::GetEmbeddedTexture` resolves a material
path of the form `*N` to embedded texture `N` (invariant T1 of §3); any other
string is an external file path. -/
def lookupEmbedded (texCount : Nat) (key : String) : Option Nat :=
  match parseStarRef key with
  | some n => if n < texCount then some n else none
  | none => none

/-! ### Codec-facing functions of `texture_processor.cpp` -/

/-- Model of the on-disk world seen through `fs::exists` / `stbi_load` /
`std::ifstream`: an association list from path to file bytes. -/
def FS : Type := List (String × List Nat)

/-- File lookup in the modelled file system. -/
def lookupFS (fs : FS) (p : String) : Option (List Nat) :=
  (List.find? (fun kv => kv.1 == p) fs).map (·.2)

/-- Embedding of `decodeTexture` (`texture_processor.cpp`): decode a
compressed blob via the codec, or transcode an uncompressed ARGB rectangle to
RGBA8; the format hint is taken from the texture. -/
def decodeTexture (tex : AiTexture) : Except Error DecodedTexture :=
  match tex.data with
  | .blob bytes =>
    match stbiLoadFromMemory bytes with
    | some (w, h, px) => .ok ⟨w, h, px, tex.formatHint⟩
    | none => .error ⟨.TextureDecodeFailed, "stbi_load_from_memory"⟩
  | .argb w h texels =>
    .ok ⟨w, h, texels.flatMap (fun t => [t.1, t.2.1, t.2.2.1, t.2.2.2]), tex.formatHint⟩

/-- Embedding of `resizeTexture` (`texture_processor.cpp`): reject
non-positive targets, otherwise resample to the new dimensions. -/
def resizeTexture (src : DecodedTexture) (newW newH : Int) : Except Error DecodedTexture :=
  if newW ≤ 0 ∨ newH ≤ 0 then
    .error ⟨.TextureResizeFailed, "Invalid resize target dimensions"⟩
  else
    .ok ⟨newW.toNat, newH.toNat, resamplePixels src newW.toNat newH.toNat, src.formatHint⟩

/-- Embedding of `encodeTexture` (`texture_processor.cpp`): JPEG at quality 85
for hint `"jpg"` or `"jpeg"`, PNG for every other hint. -/
def encodeTexture (tex : DecodedTexture) (hint : String) : Except Error (List Nat) :=
  let out := if hint = "jpg" ∨ hint = "jpeg" then jpgEncode tex 85 else pngEncode tex
  if out = [] then .error ⟨.TextureEncodeFailed, "stbi_write failed for hint: " ++ hint⟩
  else .ok out

/-- Embedding of `loadExternalTexture` (`texture_processor.cpp`): existence
check, decode, and format hint from the file extension. -/
def loadExternalTexture (fs : FS) (path : String) : Except Error DecodedTexture :=
  match lookupFS fs path with
  | none => .error ⟨.TextureLoadFailed, "Texture file not found: " ++ path⟩
  | some bytes =>
    match stbiLoadFromMemory bytes with
    | none => .error ⟨.TextureLoadFailed, "stbi_load"⟩
    | some (w, h, px) => .ok ⟨w, h, px, extNoDot path⟩

/-! ### Mesh simplifier (`mesh_simplifier.cpp`) -/

/-- Result record of `lodgen::SimplifyResult` (`mesh_simplifier.hpp`);
value-initialised to zeroes by `SimplifyResult result{}`. -/
structure SimplifyResult where
  originalTriangles : Nat
  simplifiedTriangles : Nat
  error : ℚ
deriving DecidableEq

/-- Embedding of `extractIndices`: the concatenation of all face index
lists. -/
def extractIndices (mesh : Mesh) : List Nat :=
  mesh.faces.flatten

/-- Embedding of the target-index computation of `simplify`
(`mesh_simplifier.cpp` lines 397-398):
`(size_t(indices.size() * ratio) / 3) * 3` clamped to at least 3.  The C++
truncation of the non-negative float product is modelled by
`Int.toNat ∘ Int.floor` over `ℚ` (for negative products both agree after the
clamp to 3). -/
def targetIndexCount (len : Nat) (rt : ℚ) : Nat :=
  max ((Int.toNat ⌊(len : ℚ) * rt⌋ / 3) * 3) 3

/-- Modelled from the spec: the edge-collapse kernel collaborator
(`meshopt_simplify` / `meshopt_simplifyWithAttributes`, §4.1 step 5) returns a
new index array of length at most `indices.len`; the stand-in truncates the
index list to the target. -/
def meshoptSimplify (indices : List Nat) (target : Nat) : List Nat :=
  if target ≤ indices.length then indices.take target else indices

/-- First occurrence order of the values of a list, the model of the order in
which `meshopt_optimizeVertexFetchRemap` assigns new vertex slots. -/
def firstUseOrder (l : List Nat) : List Nat :=
  l.foldl (fun acc v => if v ∈ acc then acc else acc ++ [v]) []

/-- Index of a value in a list, or `none`: the remap table entry
(`none` models the `~0u` sentinel of the C++ remap). -/
def firstIdx (order : List Nat) (v : Nat) : Option Nat :=
  (enumFrom 0 order).findSome? fun p => if p.2 = v then some p.1 else none

/-- Embedding of `remapBoneWeights` (`mesh_simplifier.cpp`): translate each
weight's vertex id through the remap table, dropping weights whose vertex was
removed, preserving order. -/
def remapBoneWeights (bones : List Bone) (remapLen : Nat) (remap : Nat → Option Nat) :
    List Bone :=
  bones.map fun bone =>
    ⟨bone.weights.filterMap fun vw =>
      if vw.1 < remapLen then
        match remap vw.1 with
        | some nv => some (nv, vw.2)
        | none => none
      else none⟩

/-- Group a flat index list into faces of three indices each
(`writeBackFaces`: `faceCount = indices.size() / 3`, any remainder dropped). -/
def toTriples : List Nat → List (List Nat)
  | a :: b :: c :: rest => [a, b, c] :: toTriples rest
  | _ => []

/-- Gather the entries of a per-vertex array selected by the live-vertex order:
the net effect on one attribute array of `packVertices`, the compaction loop
`compacted[remap[i]] = verts[i]` and `unpackVertices` in
`mesh_simplifier.cpp`. -/
def gatherBy {α : Type} [Inhabited α] (order : List Nat) (l : List α) : List α :=
  order.map fun oldIdx => l.getD oldIdx default

instance : Inhabited (ℚ × ℚ × ℚ) := ⟨(0, 0, 0)⟩

instance : Inhabited (ℚ × ℚ × ℚ × ℚ) := ⟨(0, 0, 0, 0)⟩

/-- Embedding of `simplify` (`mesh_simplifier.cpp`).  Non-triangle meshes and
meshes with no indices are returned unchanged with the zero-initialised result
(only `originalTriangles` set).  Otherwise the kernel is called with
`targetIndexCount`, the post passes (vertex cache, overdraw) are modelled as
permutation-free identities, and the single compaction remap is applied to
every per-vertex array, the faces and the bone weights.  The simplifier has no
error path: its result type carries no error case. -/
def simplify (mesh : Mesh) (rt : ℚ) : Mesh × SimplifyResult :=
  let orig := mesh.faces.length
  if mesh.primitiveTypes ≠ 4 then (mesh, ⟨orig, 0, 0⟩)
  else
    let indices := extractIndices mesh
    if indices = [] then (mesh, ⟨orig, 0, 0⟩)
    else
      let target := targetIndexCount indices.length rt
      let simplified := meshoptSimplify indices target
      let order := firstUseOrder simplified
      let remap := firstIdx order
      let remapped := simplified.map fun v => (remap v).getD 0
      let mesh' : Mesh :=
        { primitiveTypes := mesh.primitiveTypes
          positions := gatherBy order mesh.positions
          normals := mesh.normals.map (gatherBy order)
          tangents := mesh.tangents.map (gatherBy order)
          bitangents := mesh.bitangents.map (gatherBy order)
          uv := mesh.uv.map (gatherBy order)
          colors := mesh.colors.map (gatherBy order)
          faces := toTriples remapped
          materialIndex := mesh.materialIndex
          bones := remapBoneWeights mesh.bones mesh.positions.length remap }
      (mesh', ⟨orig, (toTriples remapped).length, 0⟩)

/-! ### Texture processor (`texture_processor.cpp`) -/

/-- Options record of `lodgen::TextureOptions` (`texture_processor.hpp`). -/
structure TextureOptions where
  resizeTextures : Bool
  buildAtlas : Bool
  modelDir : String
  outputDir : String
deriving DecidableEq

/-- Statistics record of `lodgen::TextureStats` (`texture_processor.hpp`). -/
structure TextureStats where
  inputCount : Nat
  outputCount : Nat
  atlasWidth : Nat
  atlasHeight : Nat
deriving DecidableEq

/-- Scaled dimension of `processTextures`:
`std::max(1, static_cast<int>(dim * ratio))`.  Truncation of the float product
is modelled by the rational floor; for negative products truncation and floor
differ but agree after the clamp to 1. -/
def scaledDim (dim : Nat) (rt : ℚ) : Int :=
  max 1 ⌊(dim : ℚ) * rt⌋

/-- The `HINTMAXTEXTURELEN` constant of assimp (capacity of
`aiTexture::achFormatHint`, 8 characters plus the terminator). -/
def hintMaxTextureLen : Nat := 9

/-- Embedding of `replaceEmbeddedBlob` (`texture_processor.cpp`): encode the
resized image with the given hint, install the encoded bytes as the new
compressed blob, and copy the hint string (truncated by `strncpy` to 8
characters) into the format hint. -/
def replaceEmbeddedBlob (tex : AiTexture) (resized : DecodedTexture) (hint : String) :
    Except Error AiTexture :=
  (encodeTexture resized hint).map fun enc =>
    { tex with data := .blob enc, formatHint := hint.take (hintMaxTextureLen - 1) }

/-- Body of the Pass A loop of `processTextures` for the embedded texture at
array index `i`: decode, compute scaled dimensions, resize, re-encode with the
decoded hint (empty hint replaced by `"png"`), and assign a generated filename
when none is set. -/
def passAStep (rt : ℚ) (i : Nat) (tex : AiTexture) : Except Error AiTexture :=
  match decodeTexture tex with
  | .error e => .error e
  | .ok decoded =>
    match resizeTexture decoded (scaledDim decoded.width rt) (scaledDim decoded.height rt) with
    | .error e => .error e
    | .ok resized =>
      let hint := if decoded.formatHint = "" then "png" else decoded.formatHint
      match replaceEmbeddedBlob tex resized hint with
      | .error e => .error e
      | .ok tex' =>
        if tex'.filename = "" then
          .ok { tex' with filename := "texture_" ++ toString i ++ "." ++ hint }
        else .ok tex'

/-- Pass A of `processTextures` over the embedded texture array, threading the
texture index and the two counters.  `inputCount` is incremented before the
decode, so a failing texture is counted as input; processing stops at the
first error, leaving the remaining textures untouched (the C++ mutates the
array in place and returns). -/
def passAGo (rt : ℚ) : Nat → List AiTexture → List AiTexture × Nat × Nat × Option Error
  | _, [] => ([], 0, 0, none)
  | i, tex :: rest =>
    match passAStep rt i tex with
    | .error e => (tex :: rest, 1, 0, some e)
    | .ok tex' =>
      let (rest', ic, oc, err) := passAGo rt (i + 1) rest
      (tex' :: rest', ic + 1, oc + 1, err)

/-- The flattened iteration space of Pass B (and of the atlas source
collection): `(material index, type index, slot index, slot path)` in material
order, then `kTextureTypes` order, then slot order.  Each slot is read exactly
once and before any write to it, so reading all paths up front is equivalent
to the interleaved reads of the C++ loops. -/
def slotEntries (mats : List Material) : List (Nat × Nat × Nat × String) :=
  (enumFrom 0 mats).flatMap fun mi =>
    (List.range numTexTypes).flatMap fun t =>
      (enumFrom 0 (mi.2.slots.getD t [])).map fun si => (mi.1, t, si.1, si.2.path)

/-- Write the path property of one material slot
(`aiMaterial::AddProperty` with `AI_MATKEY_TEXTURE`). -/
def setSlotPath (mats : List Material) (m t s : Nat) (p : String) : List Material :=
  updateAt mats m fun mat =>
    ⟨updateAt mat.slots t fun sl => updateAt sl s fun slot => { slot with path := p }⟩

/-- State threaded through the Pass B loop: the mutated materials, the
dedup map `source path → output leaf name`, the write events
`(destination path, encoded bytes)` issued to disk, and the two counters. -/
structure PassBState where
  mats : List Material
  dedup : List (String × String)
  written : List (String × List Nat)
  inputCount : Nat
  outputCount : Nat

/-- Body of the Pass B loop of `processTextures` for one slot entry: skip
embedded references, consult the dedup map, and on a miss load, resize,
re-encode and write the external texture, recording `key → basename(key)`;
in either non-skip case the slot path is overwritten with the recorded output
name. -/
def passBStep (rt : ℚ) (modelDir outputDir : String) (fs : FS) (texCount : Nat)
    (st : PassBState) (entry : Nat × Nat × Nat × String) :
    PassBState × Option Error :=
  let (m, t, s, rawPath) := entry
  if (lookupEmbedded texCount rawPath).isSome then (st, none)
  else
    match lookupAssoc st.dedup rawPath with
    | some outName => ({ st with mats := setSlotPath st.mats m t s outName }, none)
    | none =>
      let st := { st with inputCount := st.inputCount + 1 }
      match loadExternalTexture fs (joinPath modelDir rawPath) with
      | .error e => (st, some e)
      | .ok decoded =>
        match resizeTexture decoded (scaledDim decoded.width rt) (scaledDim decoded.height rt) with
        | .error e => (st, some e)
        | .ok resized =>
          let hint := if decoded.formatHint = "" then "png" else decoded.formatHint
          match encodeTexture resized hint with
          | .error e => (st, some e)
          | .ok encoded =>
            let outName := baseName rawPath
            let destPath := joinPath outputDir outName
            let st :=
              { st with
                dedup := st.dedup ++ [(rawPath, outName)]
                written := st.written ++ [(destPath, encoded)]
                outputCount := st.outputCount + 1 }
            ({ st with mats := setSlotPath st.mats m t s outName }, none)

/-- The Pass B loop over the flattened slot entries, stopping at the first
error with the state reached so far. -/
def passBGo (rt : ℚ) (modelDir outputDir : String) (fs : FS) (texCount : Nat) :
    List (Nat × Nat × Nat × String) → PassBState → PassBState × Option Error
  | [], st => (st, none)
  | entry :: rest, st =>
    match passBStep rt modelDir outputDir fs texCount st entry with
    | (st', some e) => (st', some e)
    | (st', none) => passBGo rt modelDir outputDir fs texCount rest st'

/-- Outcome of `processTextures`: the scene as mutated up to the return point,
the external write events, and the returned stats or error. -/
structure TexProcOutcome where
  scene : Scene
  written : List (String × List Nat)
  result : Except Error TextureStats

/-- Embedding of `processTextures` (`texture_processor.cpp`): Pass A resizes
every embedded texture in place; Pass B is skipped entirely when
`opts.outputDir` is empty, otherwise it walks every material slot in canonical
order, deduplicating external sources by raw path.  Note that
`opts.resizeTextures` is not read anywhere in this function. -/
def processTextures (scene : Scene) (rt : ℚ) (opts : TextureOptions) (fs : FS) :
    TexProcOutcome :=
  let (texs', ic, oc, errA) := passAGo rt 0 scene.textures
  let sceneA := { scene with textures := texs' }
  match errA with
  | some e => ⟨sceneA, [], .error e⟩
  | none =>
    if opts.outputDir = "" then ⟨sceneA, [], .ok ⟨ic, oc, 0, 0⟩⟩
    else
      let st0 : PassBState := ⟨scene.materials, [], [], ic, oc⟩
      let (st, errB) :=
        passBGo rt opts.modelDir opts.outputDir fs scene.textures.length
          (slotEntries scene.materials) st0
      match errB with
      | some e => ⟨{ sceneA with materials := st.mats }, st.written, .error e⟩
      | none =>
        ⟨{ sceneA with materials := st.mats }, st.written,
          .ok ⟨st.inputCount, st.outputCount, 0, 0⟩⟩

/-! ### Atlas packer (`texture_atlas.cpp`) -/

/-- Embedding of `nextPow2` (`texture_atlas.cpp`): the classic 32-bit
bit-smearing round-up, declared on `unsigned int`, so every step is taken
modulo `2 ^ 32` (the decrement and the final increment can wrap). -/
def nextPow2 (v : Nat) : Nat :=
  let x := (v + (2 ^ 32 - 1)) % 2 ^ 32
  let x := x ||| (x >>> 1)
  let x := x ||| (x >>> 2)
  let x := x ||| (x >>> 4)
  let x := x ||| (x >>> 8)
  let x := x ||| (x >>> 16)
  (x + 1) % 2 ^ 32

/-- Exact model of `std::ceil(std::sqrt(n))` on a natural argument: the least
natural whose square is at least `n`. -/
def ceilSqrtNat (n : Nat) : Nat :=
  if Nat.sqrt n * Nat.sqrt n = n then Nat.sqrt n else Nat.sqrt n + 1

/-- Packed rectangle of `AtlasRegion` (`texture_atlas.cpp`), in pixels. -/
structure Region where
  x : Nat
  y : Nat
  w : Nat
  h : Nat
deriving DecidableEq

instance : Inhabited Region := ⟨⟨0, 0, 0, 0⟩⟩

/-- Insert an index into a height-descending index list (stable model of the
`std::sort` comparator `textures[a].height > textures[b].height`). -/
def insertByHeight (dims : List (Nat × Nat)) (i : Nat) : List Nat → List Nat
  | [] => [i]
  | j :: rest =>
    if (dims.getD j (0, 0)).2 < (dims.getD i (0, 0)).2 then i :: j :: rest
    else j :: insertByHeight dims i rest

/-- Texture indices sorted by decreasing height, the iteration order of
`shelfPack`. -/
def sortIdxByHeight (dims : List (Nat × Nat)) : List Nat :=
  (List.range dims.length).foldr (insertByHeight dims) []

/-- One placement step of `shelfPack`: advance to a fresh shelf when the
rectangle does not fit the current one, record the region, move the cursor and
grow the shelf height. -/
def shelfStep (dims : List (Nat × Nat)) (atlasW : Nat)
    (st : List Region × Nat × Nat × Nat) (idx : Nat) : List Region × Nat × Nat × Nat :=
  let (regions, curX, curY, shelfH) := st
  let w := (dims.getD idx (0, 0)).1
  let h := (dims.getD idx (0, 0)).2
  let (curX', curY', shelfH') :=
    if atlasW < curX + w then (0, curY + shelfH, 0) else (curX, curY, shelfH)
  (regions.set idx ⟨curX', curY', w, h⟩, curX' + w, curY', max shelfH' h)

/-- Full `shelfPack` fold: regions indexed like the input textures, plus the
final `(curX, curY, shelfH)` cursor. -/
def shelfPackSt (dims : List (Nat × Nat)) (atlasW : Nat) :
    List Region × Nat × Nat × Nat :=
  (sortIdxByHeight dims).foldl (shelfStep dims atlasW)
    (List.replicate dims.length default, 0, 0, 0)

/-- Regions returned by `shelfPack`. -/
def shelfRegions (dims : List (Nat × Nat)) (atlasW : Nat) : List Region :=
  (shelfPackSt dims atlasW).1

/-- The quantity `curY + shelfH` at the end of the `shelfPack` loop, before
the power-of-two round-up. -/
def shelfRawH (dims : List (Nat × Nat)) (atlasW : Nat) : Nat :=
  (shelfPackSt dims atlasW).2.2.1 + (shelfPackSt dims atlasW).2.2.2

/-- Reinterpretation of a 32-bit unsigned value as a signed `int`
(two's complement), the model of `static_cast<int>` on an `unsigned int`. -/
def toInt32 (n : Nat) : Int :=
  if n % 2 ^ 32 < 2 ^ 31 then ((n % 2 ^ 32 : Nat) : Int)
  else ((n % 2 ^ 32 : Nat) : Int) - 2 ^ 32

/-- The unsigned round-up `nextPow2(curY + shelfH)` computed by `shelfPack`
before the signed cast; `buildAtlas` stores this value back into
`AtlasInfo::height` through the unsigned cast. -/
def shelfAtlasHU (dims : List (Nat × Nat)) (atlasW : Nat) : Nat :=
  nextPow2 (shelfRawH dims atlasW)

/-- The `int` out-parameter `atlasH` of `shelfPack`:
`static_cast<int>(nextPow2(curY + shelfH))` — for raw heights in
`(2^30, 2^31]` the cast makes it negative. -/
def shelfAtlasH (dims : List (Nat × Nat)) (atlasW : Nat) : Int :=
  toInt32 (shelfAtlasHU dims atlasW)

/-- Embedding of `typeSuffix` (`texture_atlas.cpp`): filename suffix per
texture type, in `kTextureTypes` order. -/
def typeSuffix (t : Nat) : String :=
  match t with
  | 0 => "diffuse"
  | 1 => "specular"
  | 2 => "ambient"
  | 3 => "emissive"
  | 4 => "height"
  | 5 => "normal"
  | 6 => "shininess"
  | 7 => "opacity"
  | 8 => "displacement"
  | 9 => "lightmap"
  | 10 => "reflection"
  | 11 => "basecolor"
  | 12 => "normal_camera"
  | 13 => "emission"
  | 14 => "metalness"
  | 15 => "roughness"
  | 16 => "ao"
  | 17 => "sheen"
  | 18 => "clearcoat"
  | 19 => "transmission"
  | _ => "unknown"

/-- Modelled from the spec: the static `encodePng` helper of
`texture_atlas.cpp`, with the codec collaborator modelled as total on the
pixel buffers the pipeline feeds it.  The real `stbi_write_png` path and the
subsequent `writeFile` can fail and then return `AtlasBuildFailed`; those
collaborator failures are outside this model and excluded by the amended
claim C7. -/
def encodePng (pixels : List Nat) (w h : Nat) : List Nat :=
  0 :: w :: h :: pixels

/-- Options record of `lodgen::AtlasOptions` (`texture_atlas.hpp`). -/
structure AtlasOptions where
  modelDir : String
  outputDir : String
deriving DecidableEq

/-- Result record of `lodgen::AtlasInfo` (`texture_atlas.hpp`). -/
structure AtlasInfo where
  filename : String
  typ : Nat
  inputCount : Nat
  width : Nat
  height : Nat
deriving DecidableEq

/-- One collected source texture of `buildAtlas` step 1: the decoded image and
the disk path it came from, if external (recorded for the final cleanup). -/
structure SourceTex where
  decoded : DecodedTexture
  externalPath : Option String
deriving DecidableEq

instance : Inhabited SourceTex := ⟨⟨default, none⟩⟩

/-- One slot reference of `buildAtlas` step 1:
`(material, type, slot, source index)`. -/
structure SlotRef where
  mat : Nat
  typ : Nat
  slot : Nat
  srcIdx : Nat
deriving DecidableEq

/-- Resolve one first-seen key of `buildAtlas` step 1: decode the embedded
texture it references, or load it from the output directory (preferring the
resized copy) or the model directory, recording the disk path for cleanup. -/
def resolveKey (scene : Scene) (opts : AtlasOptions) (fs : FS) (key : String) :
    Except Error SourceTex :=
  match lookupEmbedded scene.textures.length key with
  | some n => (decodeTexture (scene.textures.getD n default)).map fun dec => ⟨dec, none⟩
  | none =>
    let fromOutput := joinPath opts.outputDir (baseName key)
    let fromModel := joinPath opts.modelDir (baseName key)
    let filePath := if (lookupFS fs fromOutput).isSome then fromOutput else fromModel
    (loadExternalTexture fs filePath).map fun dec => ⟨dec, some filePath⟩

/-- The source-collection loop of `buildAtlas` step 1 over the flattened slot
entries, threading the key dedup map, the source list and the slot-reference
list. -/
def collectGo (scene : Scene) (opts : AtlasOptions) (fs : FS) :
    List (Nat × Nat × Nat × String) →
    List (String × Nat) × List SourceTex × List SlotRef →
    Except Error (List SourceTex × List SlotRef)
  | [], (_, srcs, refs) => .ok (srcs, refs)
  | (m, t, s, key) :: rest, (keyMap, srcs, refs) =>
    match lookupAssoc keyMap key with
    | some idx => collectGo scene opts fs rest (keyMap, srcs, refs ++ [⟨m, t, s, idx⟩])
    | none =>
      match resolveKey scene opts fs key with
      | .error e => .error e
      | .ok src =>
        let idx := srcs.length
        collectGo scene opts fs rest (keyMap ++ [(key, idx)], srcs ++ [src], refs ++ [⟨m, t, s, idx⟩])

/-- Embedding of `buildAtlas` step 1: collect every unique source texture and
every slot reference, in canonical material × type × slot order. -/
def collectSources (scene : Scene) (opts : AtlasOptions) (fs : FS) :
    Except Error (List SourceTex × List SlotRef) :=
  collectGo scene opts fs (slotEntries scene.materials) ([], [], [])

/-- The set of types with at least one slot reference, iterated in
`kTextureTypes` order (the `std::set` membership test of the C++). -/
def activeTypes (refs : List SlotRef) : List Nat :=
  (List.range numTexTypes).filter fun t => refs.any fun r => r.typ == t

/-- Embedding of `buildAtlas` step 2: per material, the source index of its
first diffuse slot, else the source index of its first slot of any type, else
`-1`. -/
def matToDiffuseSrc (numMats : Nat) (refs : List SlotRef) : List Int :=
  let pass1 := refs.foldl
    (fun acc r =>
      if r.typ = 0 ∧ acc.getD r.mat (-1) = -1 then acc.set r.mat (Int.ofNat r.srcIdx) else acc)
    (List.replicate numMats (-1 : Int))
  refs.foldl
    (fun acc r => if acc.getD r.mat (-1) = -1 then acc.set r.mat (Int.ofNat r.srcIdx) else acc)
    pass1

/-- Unique source indices referenced by slots of type `t`, in first-appearance
order (the `srcIdxToTypeSlot` map plus `typeTextures` vector of the C++). -/
def typeSrcIdxs (refs : List SlotRef) (t : Nat) : List Nat :=
  refs.foldl (fun acc r => if r.typ = t ∧ r.srcIdx ∉ acc then acc ++ [r.srcIdx] else acc) []

/-- Dimensions of the unique textures packed for type `t`. -/
def typeDims (srcs : List SourceTex) (refs : List SlotRef) (t : Nat) : List (Nat × Nat) :=
  (typeSrcIdxs refs t).map fun i =>
    ((srcs.getD i default).decoded.width, (srcs.getD i default).decoded.height)

/-- Largest width among the textures packed for type `t` (the `maxW` loop). -/
def typeMaxW (srcs : List SourceTex) (refs : List SlotRef) (t : Nat) : Nat :=
  (typeDims srcs refs t).foldl (fun a d => max a d.1) 0

/-- The atlas width computed for type `t`:
`min(nextPow2(maxW * ceil(sqrt(n))), 8192)`. -/
def typeAtlasW (srcs : List SourceTex) (refs : List SlotRef) (t : Nat) : Nat :=
  min (nextPow2 (typeMaxW srcs refs t * ceilSqrtNat (typeDims srcs refs t).length)) 8192

/-- The pre-round-up packed height for type `t`. -/
def typeRawH (srcs : List SourceTex) (refs : List SlotRef) (t : Nat) : Nat :=
  shelfRawH (typeDims srcs refs t) (typeAtlasW srcs refs t)

/-- The unsigned atlas height recorded for type `t` (the value written into
`AtlasInfo::height` via the unsigned cast). -/
def typeAtlasHU (srcs : List SourceTex) (refs : List SlotRef) (t : Nat) : Nat :=
  shelfAtlasHU (typeDims srcs refs t) (typeAtlasW srcs refs t)

/-- The signed `atlasH` out-parameter computed for type `t`, the value the
`atlasH > 8192` guard of `buildAtlas` actually compares. -/
def typeAtlasH (srcs : List SourceTex) (refs : List SlotRef) (t : Nat) : Int :=
  shelfAtlasH (typeDims srcs refs t) (typeAtlasW srcs refs t)

/-- Overwrite `count` bytes of a buffer starting at `off`, the model of one
row `memcpy` of the atlas blit. -/
def writeRow (buf : List Nat) (off : Nat) (bytes : List Nat) : List Nat :=
  buf.take off ++ bytes ++ buf.drop (off + bytes.length)

/-- Blit one decoded texture into its region, row by row. -/
def blitOne (atlasW : Nat) (buf : List Nat) (src : DecodedTexture) (reg : Region) : List Nat :=
  (List.range reg.h).foldl
    (fun b row =>
      writeRow b (((reg.y + row) * atlasW + reg.x) * 4)
        ((src.pixels.drop (row * reg.w * 4)).take (reg.w * 4)))
    buf

/-- Blit every texture of one type into a zero-initialised
`atlasW × atlasH × 4` buffer. -/
def blitAll (atlasW atlasH : Nat) (texs : List DecodedTexture) (regions : List Region) :
    List Nat :=
  (enumFrom 0 texs).foldl
    (fun b p => blitOne atlasW b p.2 (regions.getD p.1 default))
    (List.replicate (atlasW * atlasH * 4) 0)

/-- The per-source diffuse region table: `diffuseRegions[srcIdx] :=
regions[typeSlot]` over the diffuse type's source map, with
zero regions elsewhere. -/
def diffuseRegionTable (srcCount : Nat) (srcIdxs : List Nat) (regions : List Region) :
    List Region :=
  (enumFrom 0 srcIdxs).foldl
    (fun acc p => acc.set p.2 (regions.getD p.1 default))
    (List.replicate srcCount default)

/-- Rewrite every slot of type `t` to the atlas filename with clamp wrap
modes (`AddProperty` of the texture path and both mapping modes). -/
def updateSlotsForType (refs : List SlotRef) (t : Nat) (filename : String)
    (mats : List Material) : List Material :=
  refs.foldl
    (fun ms r =>
      if r.typ = t then
        updateAt ms r.mat fun mat =>
          ⟨updateAt mat.slots t fun sl => updateAt sl r.slot fun _ => ⟨filename, 1, 1⟩⟩
      else ms)
    mats

/-- State threaded through the per-type loop of `buildAtlas` step 3: the
mutated materials, the replacement embedded texture list, the file write
events, the collected `AtlasInfo`s and the recorded diffuse atlas layout. -/
structure TypeFoldState where
  mats : List Material
  emb : List AiTexture
  written : List (String × List Nat)
  infos : List AtlasInfo
  diffuse : Option (Nat × Nat × List Region)

/-- The per-type loop of `buildAtlas` step 3: pack, bound-check the signed
`atlasH` out-parameter, blit, encode, write, embed, rewrite the type's
material slots, and record the first diffuse layout; the loop stops at the
first failure with the state mutated so far.  The guard compares the signed
`atlasH`, so an unsigned round-up in `(2^30, 2^31]` is *not* rejected; past
the guard the C++ then aborts on the oversized `atlasW * atlasH * 4`
allocation, a crash with no returned value, while this model keeps the
unsigned dimensions.  File writes are recorded as always-succeeding events
(`writeFile`'s two `AtlasBuildFailed` returns are outside the model, see the
amended claim C7). -/
def processTypes (srcs : List SourceTex) (refs : List SlotRef) (opts : AtlasOptions) :
    List Nat → TypeFoldState → TypeFoldState × Option Error
  | [], st => (st, none)
  | t :: rest, st =>
    let srcIdxs := typeSrcIdxs refs t
    let texs := srcIdxs.map fun i => (srcs.getD i default).decoded
    if texs = [] then processTypes srcs refs opts rest st
    else
      let dims := typeDims srcs refs t
      let atlasW := typeAtlasW srcs refs t
      let regions := shelfRegions dims atlasW
      let atlasH := shelfAtlasH dims atlasW
      if 8192 < atlasH then
        (st, some ⟨.AtlasBuildFailed, "Atlas height exceeds 8192px for type: " ++ typeSuffix t⟩)
      else
        let atlasHU := shelfAtlasHU dims atlasW
        let encoded := encodePng (blitAll atlasW atlasHU texs regions) atlasW atlasHU
        let filename := "atlas_" ++ typeSuffix t ++ ".png"
        let newTex : AiTexture := ⟨.blob encoded, "png", filename⟩
        let diffuse' :=
          if t = 0 ∧ st.diffuse = none then
            some (atlasW, atlasHU, diffuseRegionTable srcs.length srcIdxs regions)
          else st.diffuse
        processTypes srcs refs opts rest
          { mats := updateSlotsForType refs t filename st.mats
            emb := st.emb ++ [newTex]
            written := st.written ++ [(joinPath opts.outputDir filename, encoded)]
            infos := st.infos ++ [⟨filename, t, texs.length, atlasW, atlasHU⟩]
            diffuse := diffuse' }

/-- Embedding of `buildAtlas` step 5: remap the UV channels of every mesh with
a valid material index, a resolved diffuse source and a non-empty region,
using the diffuse atlas layout; the third UV component is untouched. -/
def remapUVs (meshes : List Mesh) (numMats : Nat) (m2s : List Int)
    (regs : List Region) (aw ah : Nat) : List Mesh :=
  meshes.map fun mesh =>
    if numMats ≤ mesh.materialIndex then mesh
    else
      let si := m2s.getD mesh.materialIndex (-1)
      if si < 0 then mesh
      else
        let reg := regs.getD si.toNat default
        if reg.w = 0 ∨ reg.h = 0 then mesh
        else
          let u0 : ℚ := (reg.x : ℚ) / (aw : ℚ)
          let v0 : ℚ := (reg.y : ℚ) / (ah : ℚ)
          let us : ℚ := (reg.w : ℚ) / (aw : ℚ)
          let vs : ℚ := (reg.h : ℚ) / (ah : ℚ)
          { mesh with
            uv := mesh.uv.map (List.map fun p => (u0 + p.1 * us, v0 + p.2.1 * vs, p.2.2)) }

/-- Outcome of `buildAtlas`: the scene as mutated up to the return point, the
atlas file write events, the file system after the best-effort cleanup, and
the returned infos or error. -/
structure AtlasOutcome where
  scene : Scene
  written : List (String × List Nat)
  fs : FS
  result : Except Error (List AtlasInfo)

/-- Embedding of `buildAtlas` (`texture_atlas.cpp`): collect sources (scene
untouched on failure or when no sources exist), free the embedded texture
array, run the per-type loop (materials mutated in place, so they stay mutated
when a later type fails), install the new embedded textures, remap UVs from
the diffuse layout, and finally delete the consumed external files
best-effort. -/
def buildAtlas (scene : Scene) (opts : AtlasOptions) (fs : FS) : AtlasOutcome :=
  match collectSources scene opts fs with
  | .error e => ⟨scene, [], fs, .error e⟩
  | .ok (srcs, refs) =>
    if srcs = [] then ⟨scene, [], fs, .ok []⟩
    else
      let m2s := matToDiffuseSrc scene.materials.length refs
      let st0 : TypeFoldState := ⟨scene.materials, [], [], [], none⟩
      match processTypes srcs refs opts (activeTypes refs) st0 with
      | (st, some e) =>
        ⟨{ scene with materials := st.mats, textures := [] }, st.written, fs, .error e⟩
      | (st, none) =>
        let scene1 := { scene with materials := st.mats, textures := st.emb }
        let scene2 :=
          match st.diffuse with
          | none => scene1
          | some (aw, ah, dregs) =>
            { scene1 with
              meshes := remapUVs scene1.meshes scene1.materials.length m2s dregs aw ah }
        let fs1 := fs.filter fun kv => ¬ srcs.any fun s => s.externalPath == some kv.1
        ⟨scene2, st.written, fs1, .ok st.infos⟩

/-! ### LOD orchestrator (`lodgen.cpp`) -/

/-- Result record of `lodgen::LodInfo` (`lodgen.hpp`), restricted to the
fields `generateLods` fills. -/
structure LodInfo where
  ratio : ℚ
  outputPath : String
  meshResults : List SimplifyResult
  textureStats : Option TextureStats
deriving DecidableEq

/-- Modelled from the spec: the scene exporter collaborator (§6.1).  The saver
deep-copies before export, so it never mutates the scene passed to it; disk
errors are not modelled. -/
def saveScene (_scene : Scene) (_path : String) : Except Error Unit :=
  .ok ()

/-- Modelled from the spec: `aiCopyScene`, the deep-copy primitive of the
scene library (§6.1); the copy is an independent value equal to the source. -/
def copyScene (scene : Scene) : Scene :=
  scene

/-- Run the simplifier on every mesh of a scene (the per-mesh loop of
`generateLods`). -/
def simplifyScene (scene : Scene) (rt : ℚ) : Scene :=
  { scene with meshes := scene.meshes.map fun m => (simplify m rt).1 }

/-- The loop body of `generateLods` for the ratio at zero-based position `i`,
acting on the deep clone only.  The first component of the result is the
caller's source scene as left by the iteration; every mutation (simplify,
texture processing) targets the clone. -/
def lodIteration (source : Scene) (inputPath outputDir : String)
    (texOpts : Option TextureOptions) (fs : FS) (i : Nat) (rt : ℚ) :
    Scene × Except Error LodInfo :=
  let lodPostfix := "lod" ++ toString (i + 1)
  let lodDir := joinPath outputDir lodPostfix
  let outPath := joinPath lodDir (stemOf inputPath ++ "_" ++ lodPostfix ++ extDotted inputPath)
  let copy := copyScene source
  let copy := simplifyScene copy rt
  let step2 : Except Error (Scene × Option TextureStats) :=
    match texOpts with
    | some topts =>
      if topts.resizeTextures then
        let o := processTextures copy rt { topts with outputDir := lodDir } fs
        match o.result with
        | .error e => .error e
        | .ok stats => .ok (o.scene, some stats)
      else .ok (copy, none)
    | none => .ok (copy, none)
  match step2 with
  | .error e => (source, .error e)
  | .ok (copy, stats) =>
    match saveScene copy outPath with
    | .error e => (source, .error e)
    | .ok _ =>
      let meshResults := copy.meshes.map fun m =>
        ({ originalTriangles := 0, simplifiedTriangles := m.faces.length, error := 0 } :
          SimplifyResult)
      (source, .ok ⟨rt, outPath, meshResults, stats⟩)

/-- The ratio loop of `generateLods`, threading the caller's source scene
through every iteration; processing stops at the first error. -/
def generateLodsGo (inputPath outputDir : String) (texOpts : Option TextureOptions)
    (fs : FS) : Scene → Nat → List ℚ → Scene × Except Error (List LodInfo)
  | source, _, [] => (source, .ok [])
  | source, i, rt :: rest =>
    match lodIteration source inputPath outputDir texOpts fs i rt with
    | (source', .error e) => (source', .error e)
    | (source', .ok info) =>
      match generateLodsGo inputPath outputDir texOpts fs source' (i + 1) rest with
      | (source'', .error e) => (source'', .error e)
      | (source'', .ok infos) => (source'', .ok (info :: infos))

/-- Embedding of `generateLods` (`lodgen.cpp`): one iteration per ratio, each
deep-cloning the source scene and mutating only the clone.  The first
component of the result is the caller's scene after the call. -/
def generateLods (scene : Scene) (inputPath outputDir : String) (ratios : List ℚ)
    (texOpts : Option TextureOptions) (fs : FS) :
    Scene × Except Error (List LodInfo) :=
  generateLodsGo inputPath outputDir texOpts fs scene 0 ratios

/-! ### Shared helper lemmas -/

/-- The first component of one LOD iteration is the untouched source scene:
every branch of the loop body returns `source` unchanged. -/
theorem lodIteration_fst (source : Scene) (ip od : String) (to' : Option TextureOptions)
    (fs : FS) (i : Nat) (rt : ℚ) :
    (lodIteration source ip od to' fs i rt).1 = source := by
  unfold lodIteration
  dsimp only
  split <;> rfl

/-- The source scene threaded through the ratio loop is returned unchanged. -/
theorem generateLodsGo_fst (ip od : String) (to' : Option TextureOptions) (fs : FS) :
    ∀ (rs : List ℚ) (src : Scene) (i : Nat),
      (generateLodsGo ip od to' fs src i rs).1 = src := by
  intro rs
  induction rs with
  | nil => intro src i; rfl
  | cons r rest ih =>
    intro src i
    have h1 := lodIteration_fst src ip od to' fs i r
    unfold generateLodsGo
    rcases hlt : lodIteration src ip od to' fs i r with ⟨src', res⟩
    rw [hlt] at h1
    cases res with
    | error e => exact h1
    | ok info =>
      dsimp only
      have h2 := ih src' (i + 1)
      rcases hgo : generateLodsGo ip od to' fs src' (i + 1) rest with ⟨src'', res2⟩
      rw [hgo] at h2
      cases res2 with
      | error e => exact h2.trans h1
      | ok infos => exact h2.trans h1

/-! ### Claim C1 -/

/-- A line-primitive mesh with two faces, used to exercise the degenerate
path of `simplify`. -/
def lineMesh : Mesh :=
  { primitiveTypes := 2
    positions := [(0, 0, 0), (1, 0, 0), (0, 1, 0)]
    normals := none
    tangents := none
    bitangents := none
    uv := []
    colors := []
    faces := [[0, 1], [1, 2]]
    materialIndex := 0
    bones := [] }

/-- C1, counterexample: on a line mesh with two faces, the early return of
`simplify` reports `simplifiedTriangles = 0` (the zero-initialised field),
not `simplifiedTriangles = originalTriangles = 2` as the claim states. -/
theorem simplify_degenerate_report_counterexample :
    (simplify lineMesh (1 / 2)).2.simplifiedTriangles
      ≠ (simplify lineMesh (1 / 2)).2.originalTriangles := by
  decide

/-- C1 (amended): for every mesh whose primitive kind is not triangles or
whose index sequence is empty, `simplify` leaves the mesh unchanged and never
produces and error (its result type has no error case); the returned result
reports `originalTriangles = faces.length` and `simplifiedTriangles = 0`, so
the two counts agree only when the mesh has no faces. -/
theorem simplify_degenerate_unchanged (mesh : Mesh) (rt : ℚ)
    (h : mesh.primitiveTypes ≠ 4 ∨ extractIndices mesh = []) :
    (simplify mesh rt).1 = mesh ∧
    (simplify mesh rt).2 = ⟨mesh.faces.length, 0, 0⟩ := by
  rcases h with h | h
  · rw [simplify, if_pos h]
    exact ⟨rfl, rfl⟩
  · by_cases h4 : mesh.primitiveTypes ≠ 4
    · rw [simplify, if_pos h4]
      exact ⟨rfl, rfl⟩
    · rw [simplify, if_neg h4, if_pos h]
      exact ⟨rfl, rfl⟩

/-- C1, witness: the amended theorem applied to the concrete line mesh. -/
theorem simplify_degenerate_unchanged_witness :
    (lineMesh.primitiveTypes ≠ 4 ∨ extractIndices lineMesh = []) ∧
    (simplify lineMesh (1 / 2)).1 = lineMesh ∧
    (simplify lineMesh (1 / 2)).2 = ⟨lineMesh.faces.length, 0, 0⟩ :=
  ⟨Or.inl (by decide), simplify_degenerate_unchanged lineMesh (1 / 2) (Or.inl (by decide))⟩

/-! ### Claim C2 -/

/-- C2: `generate_lods` never mutates the caller's source scene — the scene
threaded through every iteration of the ratio loop is returned bit-identical,
because every transform (simplify, texture processing, export) is applied to
the per-ratio deep clone only. -/
theorem generate_lods_source_immutable (scene : Scene) (inputPath outputDir : String)
    (ratios : List ℚ) (texOpts : Option TextureOptions) (fs : FS) :
    (generateLods scene inputPath outputDir ratios texOpts fs).1 = scene :=
  generateLodsGo_fst inputPath outputDir texOpts fs ratios scene 0

/-! ### Claim C6 -/

/-- A concatenation of three-element lists has length `3 · n`. -/
theorem flatten_length_of_three (l : List (List Nat)) (h : ∀ f ∈ l, f.length = 3) :
    l.flatten.length = 3 * l.length := by
  induction l with
  | nil => simp
  | cons f fs ih =>
    rw [List.flatten_cons, List.length_append, h f (by simp),
      ih (fun g hg => h g (by simp [hg])), List.length_cons]
    ring

/-- The flattened index list of a triangle mesh has length `3 · |faces|`. -/
theorem extractIndices_length (mesh : Mesh) (htri : ∀ f ∈ mesh.faces, f.length = 3) :
    (extractIndices mesh).length = 3 * mesh.faces.length :=
  flatten_length_of_three mesh.faces htri

/-- C6: for every triangle mesh with non-empty indices, the target index count
passed to the simplification kernel equals
`max(3, ⌊indices.len · ratio / 3⌋ · 3)`; it is a positive multiple of 3 and,
for a ratio in `(0, 1]`, at most `indices.len`. -/
theorem simplify_target_count (mesh : Mesh) (rt : ℚ)
    (htri : ∀ f ∈ mesh.faces, f.length = 3)
    (h4 : mesh.primitiveTypes = 4)
    (hne : extractIndices mesh ≠ [])
    (hr0 : 0 < rt) (hr1 : rt ≤ 1) :
    targetIndexCount (extractIndices mesh).length rt
      = max 3 (Int.toNat ⌊((extractIndices mesh).length : ℚ) * rt / 3⌋ * 3) ∧
    0 < targetIndexCount (extractIndices mesh).length rt ∧
    3 ∣ targetIndexCount (extractIndices mesh).length rt ∧
    targetIndexCount (extractIndices mesh).length rt ≤ (extractIndices mesh).length := by
  set L := (extractIndices mesh).length with hL
  have hLpos : 3 ≤ L := by
    rw [hL, extractIndices_length mesh htri]
    have : mesh.faces ≠ [] := by
      intro hnil
      exact hne (by rw [extractIndices, hnil]; rfl)
    have : 1 ≤ mesh.faces.length := Nat.one_le_iff_ne_zero.2 (by
      simpa [List.length_eq_zero] using this)
    omega
  have hx0 : (0 : ℚ) ≤ (L : ℚ) * rt := by positivity
  have hkey : Int.toNat ⌊(L : ℚ) * rt / 3⌋ = Int.toNat ⌊(L : ℚ) * rt⌋ / 3 := by
    have e1 : Int.toNat ⌊(L : ℚ) * rt / 3⌋ = ⌊(L : ℚ) * rt / 3⌋₊ := rfl
    have e2 : Int.toNat ⌊(L : ℚ) * rt⌋ = ⌊(L : ℚ) * rt⌋₊ := rfl
    rw [e1, e2]
    have := Nat.floor_div_nat ((L : ℚ) * rt) 3
    simpa using this
  have heq : targetIndexCount L rt
      = max 3 (Int.toNat ⌊(L : ℚ) * rt / 3⌋ * 3) := by
    rw [targetIndexCount, hkey, Nat.max_comm]
  have hfle : Int.toNat ⌊(L : ℚ) * rt⌋ ≤ L := by
    have : (L : ℚ) * rt ≤ (L : ℚ) := by
      calc (L : ℚ) * rt ≤ (L : ℚ) * 1 := by
            exact mul_le_mul_of_nonneg_left hr1 (by positivity)
        _ = (L : ℚ) := by ring
    have h1 : Int.toNat ⌊(L : ℚ) * rt⌋ = ⌊(L : ℚ) * rt⌋₊ := rfl
    rw [h1]
    calc ⌊(L : ℚ) * rt⌋₊ ≤ ⌊(L : ℚ)⌋₊ := Nat.floor_le_floor this
      _ = L := Nat.floor_natCast L
  have hle : targetIndexCount L rt ≤ L := by
    rw [targetIndexCount]
    have h1 : Int.toNat ⌊(L : ℚ) * rt⌋ / 3 * 3 ≤ L :=
      le_trans (Nat.div_mul_le_self _ 3) hfle
    omega
  refine ⟨heq, ?_, ?_, hle⟩
  · rw [targetIndexCount]; omega
  · rw [targetIndexCount]
    rcases Nat.le_total 3 (Int.toNat ⌊(L : ℚ) * rt⌋ / 3 * 3) with h | h
    · rw [Nat.max_eq_left h]
      exact dvd_mul_left 3 _
    · rw [Nat.max_eq_right h]

/-- A concrete 12-triangle cube mesh for the C6 witness. -/
def cubeMesh : Mesh :=
  { primitiveTypes := 4
    positions := [(0, 0, 0), (1, 0, 0), (1, 1, 0), (0, 1, 0),
                  (0, 0, 1), (1, 0, 1), (1, 1, 1), (0, 1, 1)]
    normals := none
    tangents := none
    bitangents := none
    uv := []
    colors := []
    faces := [[0, 1, 2], [0, 2, 3], [4, 6, 5], [4, 7, 6], [0, 4, 5], [0, 5, 1],
              [1, 5, 6], [1, 6, 2], [2, 6, 7], [2, 7, 3], [3, 7, 4], [3, 4, 0]]
    materialIndex := 0
    bones := [] }

/-- C6, witness: the target-count theorem applied to the cube at ratio 1/2. -/
theorem simplify_target_count_witness :
    targetIndexCount (extractIndices cubeMesh).length (1 / 2)
      = max 3 (Int.toNat ⌊((extractIndices cubeMesh).length : ℚ) * (1 / 2) / 3⌋ * 3) ∧
    0 < targetIndexCount (extractIndices cubeMesh).length (1 / 2) ∧
    3 ∣ targetIndexCount (extractIndices cubeMesh).length (1 / 2) ∧
    targetIndexCount (extractIndices cubeMesh).length (1 / 2)
      ≤ (extractIndices cubeMesh).length := by
  have h := simplify_target_count cubeMesh (1 / 2) (by decide) (by decide) (by decide)
    (by norm_num) (by norm_num)
  exact h

/-! ### Claim C4 -/

/-- Decidable equality for `Except` values over decidable components. -/
instance {ε α : Type} [DecidableEq ε] [DecidableEq α] : DecidableEq (Except ε α) := fun a b =>
  match a, b with
  | .error e, .error e' =>
    if h : e = e' then .isTrue (by rw [h]) else .isFalse (by intro hc; cases hc; exact h rfl)
  | .error _, .ok _ => .isFalse (by intro hc; cases hc)
  | .ok _, .error _ => .isFalse (by intro hc; cases hc)
  | .ok v, .ok v' =>
    if h : v = v' then .isTrue (by rw [h]) else .isFalse (by intro hc; cases hc; exact h rfl)

/-- The encoding step of `replaceEmbeddedBlob` never fails in the codec model:
the installed blob is JPEG at quality 85 exactly for the hints `"jpg"` and
`"jpeg"`, PNG otherwise, and the stored format hint is the hint string
truncated to 8 characters. -/
theorem replaceEmbeddedBlob_ok (tex : AiTexture) (rez : DecodedTexture) (hint : String) :
    replaceEmbeddedBlob tex rez hint = .ok
      { tex with
        data := .blob (if hint = "jpg" ∨ hint = "jpeg" then jpgEncode rez 85 else pngEncode rez)
        formatHint := hint.take (hintMaxTextureLen - 1) } := by
  unfold replaceEmbeddedBlob encodeTexture
  split
  · simp [jpgEncode, Except.map]
  · simp [pngEncode, Except.map]

/-- A 1×1 uncompressed embedded texture whose format hint is `"bmp"`, used to
exercise the hint handling of Pass A. -/
def bmpTex : AiTexture :=
  ⟨.argb 1 1 [(1, 2, 3, 4)], "bmp", "f.png"⟩

/-- C4, counterexample: for the hint `"bmp"` the encoder actually used is PNG
(the blob is the PNG encoding of the resized image), yet `format_hint` is set
to `"bmp"` — it does not name the encoder that was used. -/
theorem passA_format_hint_counterexample :
    passAStep 1 0 bmpTex
      = .ok ⟨.blob (pngEncode ⟨1, 1, [1, 2, 3, 4], "bmp"⟩), "bmp", "f.png"⟩ ∧
    "bmp" ≠ "png" := by
  constructor
  · decide
  · decide

/-- C4 (amended): for every embedded texture processed by Pass A, the
replacement blob is JPEG at quality 85 if and only if the effective hint (the
decoded hint, or `"png"` when that is empty) is `"jpg"` or `"jpeg"`, and PNG
otherwise; and after replacement `format_hint` holds the effective hint string
itself (truncated to 8 characters), which names the encoder actually used only
when that hint is `"png"`, `"jpg"` or `"jpeg"`. -/
theorem passA_encode_spec (rt : ℚ) (i : Nat) (tex tex' : AiTexture)
    (hok : passAStep rt i tex = .ok tex') :
    ∃ dec rez, decodeTexture tex = .ok dec ∧
      resizeTexture dec (scaledDim dec.width rt) (scaledDim dec.height rt) = .ok rez ∧
      tex'.data = .blob
        (if (if dec.formatHint = "" then "png" else dec.formatHint) = "jpg"
            ∨ (if dec.formatHint = "" then "png" else dec.formatHint) = "jpeg"
          then jpgEncode rez 85 else pngEncode rez) ∧
      tex'.formatHint = (if dec.formatHint = "" then "png" else dec.formatHint).take 8 := by
  unfold passAStep at hok
  cases hdec : decodeTexture tex with
  | error e => rw [hdec] at hok; cases hok
  | ok dec =>
    rw [hdec] at hok
    dsimp only at hok
    refine ⟨dec, ?_⟩
    cases hrez : resizeTexture dec (scaledDim dec.width rt) (scaledDim dec.height rt) with
    | error e => rw [hrez] at hok; cases hok
    | ok rez =>
      rw [hrez] at hok
      dsimp only at hok
      refine ⟨rez, rfl, rfl, ?_⟩
      rw [replaceEmbeddedBlob_ok] at hok
      dsimp only at hok
      split at hok <;> cases hok <;> exact ⟨by simp, by simp [hintMaxTextureLen]⟩

/-- C4, witness: the Pass A encoding theorem applied to a concrete 1×1
embedded texture with hint `"jpg"` at ratio 1. -/
theorem passA_encode_spec_witness :
    ∃ dec rez, decodeTexture (⟨.argb 1 1 [(9, 9, 9, 9)], "jpg", "g.png"⟩ : AiTexture) = .ok dec ∧
      resizeTexture dec (scaledDim dec.width 1) (scaledDim dec.height 1) = .ok rez ∧
      (⟨.blob [1, 85, 1, 1, 9, 9, 9, 9], "jpg", "g.png"⟩ : AiTexture).data = .blob
        (if (if dec.formatHint = "" then "png" else dec.formatHint) = "jpg"
            ∨ (if dec.formatHint = "" then "png" else dec.formatHint) = "jpeg"
          then jpgEncode rez 85 else pngEncode rez) ∧
      (⟨.blob [1, 85, 1, 1, 9, 9, 9, 9], "jpg", "g.png"⟩ : AiTexture).formatHint
        = (if dec.formatHint = "" then "png" else dec.formatHint).take 8 :=
  passA_encode_spec 1 0 ⟨.argb 1 1 [(9, 9, 9, 9)], "jpg", "g.png"⟩
    ⟨.blob [1, 85, 1, 1, 9, 9, 9, 9], "jpg", "g.png"⟩ (by decide)

/-! ### Claim C5 -/

/-- Length of a `flatMap` whose pieces all have the same length. -/
theorem length_flatMap_const {α β : Type} (l : List α) (f : α → List β) (k : Nat)
    (h : ∀ a ∈ l, (f a).length = k) : (l.flatMap f).length = l.length * k := by
  induction l with
  | nil => simp
  | cons a l ih =>
    rw [List.flatMap_cons, List.length_append, h a (by simp),
      ih (fun b hb => h b (by simp [hb])), List.length_cons]
    ring

/-- The resampler produces exactly `w · h · 4` bytes. -/
theorem resamplePixels_length (src : DecodedTexture) (w h : Nat) :
    (resamplePixels src w h).length = w * h * 4 := by
  unfold resamplePixels
  rw [length_flatMap_const _ _ (w * 4)]
  · rw [List.length_range]; ring
  · intro y _
    rw [length_flatMap_const _ _ 4]
    · rw [List.length_range]
    · intro x _
      simp

/-- Resizing to the clamped scaled dimensions never fails and yields exactly
those dimensions. -/
theorem resizeTexture_scaled (src : DecodedTexture) (rt : ℚ) (w h : Nat) :
    resizeTexture src (scaledDim w rt) (scaledDim h rt)
      = .ok ⟨(scaledDim w rt).toNat, (scaledDim h rt).toNat,
             resamplePixels src (scaledDim w rt).toNat (scaledDim h rt).toNat,
             src.formatHint⟩ := by
  unfold resizeTexture
  rw [if_neg]
  push_neg
  constructor <;>
    exact lt_of_lt_of_le one_pos (le_max_left _ _)

/-- The encoder model never fails and returns the tagged bytes selected by the
hint. -/
theorem encodeTexture_eq (rez : DecodedTexture) (hint : String) :
    encodeTexture rez hint
      = .ok (if hint = "jpg" ∨ hint = "jpeg" then jpgEncode rez 85 else pngEncode rez) := by
  unfold encodeTexture
  split <;> simp [jpgEncode, pngEncode]

/-- Decoding an encoded image recovers its dimensions and pixels, provided the
pixel buffer has the advertised size. -/
theorem stbiLoad_encode (rez : DecodedTexture) (hint : String) (enc : List Nat)
    (hlen : rez.pixels.length = rez.width * rez.height * 4)
    (henc : encodeTexture rez hint = .ok enc) :
    stbiLoadFromMemory enc = some (rez.width, rez.height, rez.pixels) := by
  rw [encodeTexture_eq] at henc
  cases henc
  split
  · simp [stbiLoadFromMemory, jpgEncode, hlen]
  · simp [stbiLoadFromMemory, pngEncode, hlen]

/-- Specification of one Pass B write event: the bytes written are the
re-encoding, at the Pass-A scaled dimensions, of the external texture loaded
from the model directory. -/
def WrittenEventSpec (rt : ℚ) (md od : String) (fs : FS) (ev : String × List Nat) : Prop :=
  ∃ key dec rez encoded,
    loadExternalTexture fs (joinPath md key) = .ok dec ∧
    resizeTexture dec (scaledDim dec.width rt) (scaledDim dec.height rt) = .ok rez ∧
    rez.width = (scaledDim dec.width rt).toNat ∧
    rez.height = (scaledDim dec.height rt).toNat ∧
    encodeTexture rez (if dec.formatHint = "" then "png" else dec.formatHint) = .ok encoded ∧
    ev = (joinPath od (baseName key), encoded) ∧
    stbiLoadFromMemory encoded = some (rez.width, rez.height, rez.pixels)

/-- Full case analysis of one Pass B step: an embedded reference is skipped
with the state unchanged, a dedup hit only rewrites the slot path, a failing
miss leaves dedup, written and output count untouched, and a successful miss
appends exactly one dedup entry and one write event and bumps both
counters. -/
theorem passBStep_cases (rt : ℚ) (md od : String) (fs : FS) (tc : Nat)
    (st : PassBState) (m t s : Nat) (key : String) :
    (passBStep rt md od fs tc st (m, t, s, key) = (st, none) ∧ (lookupEmbedded tc key).isSome) ∨
    ((lookupEmbedded tc key).isSome = false ∧
      ∃ outName, lookupAssoc st.dedup key = some outName ∧
        passBStep rt md od fs tc st (m, t, s, key)
          = ({ st with mats := setSlotPath st.mats m t s outName }, none)) ∨
    ((lookupEmbedded tc key).isSome = false ∧ lookupAssoc st.dedup key = none ∧
      ∃ e, passBStep rt md od fs tc st (m, t, s, key)
          = ({ st with inputCount := st.inputCount + 1 }, some e)) ∨
    ((lookupEmbedded tc key).isSome = false ∧ lookupAssoc st.dedup key = none ∧
      ∃ dec rez encoded,
        loadExternalTexture fs (joinPath md key) = .ok dec ∧
        resizeTexture dec (scaledDim dec.width rt) (scaledDim dec.height rt) = .ok rez ∧
        encodeTexture rez (if dec.formatHint = "" then "png" else dec.formatHint)
          = .ok encoded ∧
        passBStep rt md od fs tc st (m, t, s, key)
          = ({ mats := setSlotPath st.mats m t s (baseName key)
               dedup := st.dedup ++ [(key, baseName key)]
               written := st.written ++ [(joinPath od (baseName key), encoded)]
               inputCount := st.inputCount + 1
               outputCount := st.outputCount + 1 }, none)) := by
  unfold passBStep
  dsimp only
  by_cases hemb : (lookupEmbedded tc key).isSome
  · left
    rw [if_pos hemb]
    exact ⟨rfl, hemb⟩
  · rw [if_neg hemb]
    cases hdd : lookupAssoc st.dedup key with
    | some outName =>
      right; left
      exact ⟨by simp [hemb], outName, rfl, rfl⟩
    | none =>
      cases hload : loadExternalTexture fs (joinPath md key) with
      | error e =>
        right; right; left
        exact ⟨by simp [hemb], rfl, e, rfl⟩
      | ok dec =>
        right; right; right
        refine ⟨by simp [hemb], rfl, dec, ?_⟩
        refine ⟨_, _, rfl, resizeTexture_scaled dec rt dec.width dec.height,
          encodeTexture_eq _ _, ?_⟩
        dsimp only
        rw [resizeTexture_scaled]
        dsimp only
        rw [encodeTexture_eq]

/-- Every write event accumulated by the Pass B loop satisfies the event
specification, provided the incoming ones do. -/
theorem passBGo_written (rt : ℚ) (md od : String) (fs : FS) (tc : Nat) :
    ∀ (entries : List (Nat × Nat × Nat × String)) (st : PassBState),
      (∀ ev ∈ st.written, WrittenEventSpec rt md od fs ev) →
      ∀ ev ∈ (passBGo rt md od fs tc entries st).1.written,
        WrittenEventSpec rt md od fs ev := by
  intro entries
  induction entries with
  | nil => intro st hst ev hev; exact hst ev hev
  | cons entry rest ih =>
    intro st hst
    rcases entry with ⟨m, t, s, key⟩
    unfold passBGo
    rcases passBStep_cases rt md od fs tc st m t s key with
      ⟨heq, _⟩ | ⟨_, outName, _, heq⟩ | ⟨_, _, e, heq⟩ |
      ⟨_, _, dec, rez, enc, hload, hrez, henc, heq⟩
    · rw [heq]; exact ih st hst
    · rw [heq]; exact ih _ hst
    · rw [heq]; exact hst
    · rw [heq]
      have hrezval := (resizeTexture_scaled dec rt dec.width dec.height).symm.trans hrez
      have hrezval' := Except.ok.inj hrezval
      refine ih _ ?_
      intro ev hev
      rcases List.mem_append.1 hev with h | h
      · exact hst ev h
      · have hev' := List.mem_singleton.1 h
        subst hev'
        refine ⟨key, dec, rez, enc, hload, hrez, ?_, ?_, henc, rfl, ?_⟩
        · rw [← hrezval']
        · rw [← hrezval']
        · refine stbiLoad_encode rez _ enc ?_ henc
          rw [← hrezval']
          exact resamplePixels_length dec _ _

/-- C5 (amended): `process_textures` never reads `opts.resize` — its outcome
is identical for both flag values — and every external texture written by
Pass B has the Pass-A scaled dimensions
`(max(1, ⌊w·ratio⌋), max(1, ⌊h·ratio⌋))`, never its original ones. -/
theorem processTextures_resize_semantics (scene : Scene) (rt : ℚ) (fs : FS)
    (b b' a a' : Bool) (md od : String) :
    processTextures scene rt ⟨b, a, md, od⟩ fs = processTextures scene rt ⟨b', a', md, od⟩ fs ∧
    ∀ ev ∈ (processTextures scene rt ⟨b, a, md, od⟩ fs).written,
      WrittenEventSpec rt md od fs ev := by
  refine ⟨rfl, ?_⟩
  unfold processTextures
  rcases hA : passAGo rt 0 scene.textures with ⟨texs', ic, oc, errA⟩
  dsimp only
  cases errA with
  | some e => intro ev hev; cases hev
  | none =>
    by_cases hod : od = ""
    · rw [if_pos hod]
      intro ev hev; cases hev
    · rw [if_neg hod]
      rcases hB : passBGo rt md od fs scene.textures.length (slotEntries scene.materials)
          ⟨scene.materials, [], [], ic, oc⟩ with ⟨stB, errB⟩
      dsimp only
      have hw := passBGo_written rt md od fs scene.textures.length
        (slotEntries scene.materials) ⟨scene.materials, [], [], ic, oc⟩
        (by intro ev hev; cases hev)
      rw [hB] at hw
      cases errB with
      | some e => exact hw
      | none => exact hw

/-- A scene with one material whose diffuse slot references the external file
`t.png`, and a file system holding that file as a 2×2 image. -/
def extScene : Scene :=
  ⟨[], [⟨[[⟨"t.png", 0, 0⟩]]⟩], []⟩

/-- The file system for the external-texture runs: `model/t.png` is a 2×2
image. -/
def extFS : FS :=
  [("model/t.png", 0 :: 2 :: 2 :: List.replicate 16 7)]

/-- C5, counterexample: with `opts.resize = false` the external 2×2 texture is
still resized — the file written for ratio 1/2 decodes to a 1×1 image, not to
its original decoded dimensions. -/
theorem processTextures_resize_flag_counterexample :
    (processTextures extScene (1 / 2) ⟨false, false, "model", "out"⟩ extFS).written
      = [("out/t.png", 0 :: 1 :: 1 :: [7, 7, 7, 7])] ∧
    loadExternalTexture extFS "model/t.png"
      = .ok ⟨2, 2, List.replicate 16 7, "png"⟩ ∧
    (1 : Nat) ≠ 2 := by
  refine ⟨by decide, by decide, by decide⟩

/-! ### Claim C3 -/

/-- Specification-side count of the distinct external (non-embedded) source
keys in a slot-entry list, relative to an already-seen key set: exactly the
keys on which the Pass B dedup map grows. -/
def distinctExternalCount (tc : Nat) : List (Nat × Nat × Nat × String) → List String → Nat
  | [], _ => 0
  | (_, _, _, k) :: es, seen =>
    if (lookupEmbedded tc k).isSome then distinctExternalCount tc es seen
    else if k ∈ seen then distinctExternalCount tc es seen
    else 1 + distinctExternalCount tc es (k :: seen)

/-- Lookup in an association list extended on the right by one binding. -/
theorem lookupAssoc_append_isSome {β : Type} (ml : List (String × β)) (k k' : String)
    (v : β) :
    (lookupAssoc (ml ++ [(k, v)]) k').isSome
      ↔ (lookupAssoc ml k').isSome ∨ k' = k := by
  induction ml with
  | nil =>
    simp only [List.nil_append, lookupAssoc, List.find?]
    by_cases h : k = k'
    · simp [h, Option.isSome]
    · have hkk : (k == k') = false := by simp [h]
      simp [hkk, Option.isSome]
      intro hc
      exact absurd hc.symm h
  | cons p ml ih =>
    simp only [List.cons_append, lookupAssoc, List.find?]
    by_cases h : p.1 = k'
    · have : (p.1 == k') = true := by simp [h]
      simp [this, Option.isSome]
    · have : (p.1 == k') = false := by simp [h]
      simp only [this]
      exact ih

/-- Pass A counts each embedded texture exactly once as input and once as
output when it succeeds. -/
theorem passAGo_counts (rt : ℚ) :
    ∀ (texs : List AiTexture) (i : Nat) (texs' : List AiTexture) (ic oc : Nat),
      passAGo rt i texs = (texs', ic, oc, none) →
      ic = texs.length ∧ oc = texs.length := by
  intro texs
  induction texs with
  | nil =>
    intro i texs' ic oc h
    cases h
    exact ⟨rfl, rfl⟩
  | cons tex rest ih =>
    intro i texs' ic oc h
    unfold passAGo at h
    cases hstep : passAStep rt i tex with
    | error e =>
      rw [hstep] at h
      cases h
    | ok tex'' =>
      rw [hstep] at h
      dsimp only at h
      rcases hrest : passAGo rt (i + 1) rest with ⟨rest', ic', oc', err'⟩
      rw [hrest] at h
      dsimp only at h
      cases h
      have := ih (i + 1) rest' ic' oc' (by rw [hrest])
      simp [this.1, this.2]

/-- Through the Pass B loop the two counters both advance by exactly the
number of previously-unseen external keys, where the dedup map is the seen
set. -/
theorem passBGo_counts (rt : ℚ) (md od : String) (fs : FS) (tc : Nat) :
    ∀ (entries : List (Nat × Nat × Nat × String)) (st st' : PassBState)
      (seen : List String),
      (∀ k, (lookupAssoc st.dedup k).isSome ↔ k ∈ seen) →
      passBGo rt md od fs tc entries st = (st', none) →
      st'.inputCount = st.inputCount + distinctExternalCount tc entries seen ∧
      st'.outputCount = st.outputCount + distinctExternalCount tc entries seen := by
  intro entries
  induction entries with
  | nil =>
    intro st st' seen _ h
    cases h
    exact ⟨rfl, rfl⟩
  | cons entry rest ih =>
    intro st st' seen hseen h
    rcases entry with ⟨m, t, s, key⟩
    unfold passBGo at h
    rcases passBStep_cases rt md od fs tc st m t s key with
      ⟨heq, hemb⟩ | ⟨hemb, outName, hdd, heq⟩ | ⟨hemb, hdd, e, heq⟩ |
      ⟨hemb, hdd, dec, rez, enc, hload, hrez, henc, heq⟩
    · rw [heq] at h
      have := ih st st' seen hseen h
      unfold distinctExternalCount
      rw [if_pos hemb]
      exact this
    · rw [heq] at h
      have hmem : key ∈ seen := (hseen key).1 (by rw [hdd]; rfl)
      have := ih _ st' seen (by intro k; exact hseen k) h
      unfold distinctExternalCount
      rw [if_neg (by rw [hemb]; exact Bool.false_ne_true), if_pos hmem]
      exact this
    · rw [heq] at h
      cases h
    · rw [heq] at h
      have hnmem : key ∉ seen := by
        intro hc
        have := (hseen key).2 hc
        rw [hdd] at this
        cases this
      have hseen' : ∀ k, (lookupAssoc (st.dedup ++ [(key, baseName key)]) k).isSome
          ↔ k ∈ key :: seen := by
        intro k
        rw [lookupAssoc_append_isSome]
        constructor
        · rintro (hk | hk)
          · exact List.mem_cons_of_mem _ ((hseen k).1 hk)
          · rw [hk]; exact List.mem_cons_self _ _
        · intro hk
          rcases List.mem_cons.1 hk with hk | hk
          · right; exact hk
          · left; exact (hseen k).2 hk
      have := ih _ st' (key :: seen) hseen' h
      unfold distinctExternalCount
      rw [if_neg (by rw [hemb]; exact Bool.false_ne_true), if_neg hnmem]
      dsimp only at this
      omega

/-- C3 (amended): on success with a non-empty output directory, `input_count`
equals the number of embedded textures in the scene's texture array (all of
them, referenced or not) plus the number of distinct external source keys
referenced across materials, and `output_count` equals `input_count`. -/
theorem processTextures_stats (scene : Scene) (rt : ℚ) (opts : TextureOptions)
    (fs : FS) (stats : TextureStats)
    (hdir : opts.outputDir ≠ "")
    (hok : (processTextures scene rt opts fs).result = .ok stats) :
    stats.inputCount = scene.textures.length +
      distinctExternalCount scene.textures.length (slotEntries scene.materials) [] ∧
    stats.outputCount = stats.inputCount := by
  unfold processTextures at hok
  rcases hA : passAGo rt 0 scene.textures with ⟨texs', ic, oc, errA⟩
  rw [hA] at hok
  dsimp only at hok
  cases errA with
  | some e => cases hok
  | none =>
    rw [if_neg hdir] at hok
    rcases hB : passBGo rt opts.modelDir opts.outputDir fs scene.textures.length
        (slotEntries scene.materials) ⟨scene.materials, [], [], ic, oc⟩ with ⟨stB, errB⟩
    rw [hB] at hok
    dsimp only at hok
    cases errB with
    | some e => cases hok
    | none =>
      cases hok
      have hcA := passAGo_counts rt scene.textures 0 texs' ic oc (by rw [hA])
      have hcB := passBGo_counts rt opts.modelDir opts.outputDir fs scene.textures.length
        (slotEntries scene.materials) ⟨scene.materials, [], [], ic, oc⟩ stB []
        (by intro k; simp [lookupAssoc]) (by rw [hB])
      dsimp only at hcB
      constructor
      · rw [hcB.1, hcA.1]
      · rw [hcB.1, hcB.2, hcA.1, hcA.2]

/-- A scene with one embedded texture that no material references. -/
def unrefScene : Scene :=
  ⟨[], [], [⟨.argb 1 1 [(0, 0, 0, 0)], "png", "e.png"⟩]⟩

/-- C3, counterexample: a scene whose single embedded texture is referenced by
no material still reports `input_count = 1`, while the number of distinct
source keys referenced across materials is 0. -/
theorem texture_stats_counterexample :
    (processTextures unrefScene (1 / 2) ⟨true, false, "m", "o"⟩ []).result
      = .ok ⟨1, 1, 0, 0⟩ ∧
    slotEntries unrefScene.materials = [] ∧
    (1 : Nat) ≠ 0 := by
  refine ⟨by decide, by decide, by decide⟩

/-- C3, witness: the stats theorem applied to the scene with one referenced
external texture. -/
theorem processTextures_stats_witness :
    (⟨false, false, "model", "out"⟩ : TextureOptions).outputDir ≠ "" ∧
    ((processTextures extScene (1 / 2) ⟨false, false, "model", "out"⟩ extFS).result
        = .ok ⟨1, 1, 0, 0⟩) ∧
    (1 : Nat) = extScene.textures.length +
      distinctExternalCount extScene.textures.length (slotEntries extScene.materials) [] ∧
    (1 : Nat) = (1 : Nat) :=
  ⟨by decide, by decide,
    (processTextures_stats extScene (1 / 2) ⟨false, false, "model", "out"⟩
      extFS ⟨1, 1, 0, 0⟩ (by decide) (by decide)).1,
    rfl⟩

/-! ### Claim C10 -/

/-- Two half-open pixel rectangles do not overlap. -/
def RegionsDisjoint (r1 r2 : Region) : Prop :=
  r1.x + r1.w ≤ r2.x ∨ r2.x + r2.w ≤ r1.x ∨ r1.y + r1.h ≤ r2.y ∨ r2.y + r2.h ≤ r1.y

/-- Membership through one insertion of the height-descending sort. -/
theorem mem_insertByHeight (dims : List (Nat × Nat)) (i x : Nat) :
    ∀ l, x ∈ insertByHeight dims i l ↔ x = i ∨ x ∈ l := by
  intro l
  induction l with
  | nil => simp [insertByHeight]
  | cons j rest ih =>
    unfold insertByHeight
    split
    · simp
    · simp only [List.mem_cons, ih]
      tauto

/-- The height-descending insertion keeps the index list duplicate-free. -/
theorem nodup_insertByHeight (dims : List (Nat × Nat)) (i : Nat) :
    ∀ l, l.Nodup → i ∉ l → (insertByHeight dims i l).Nodup := by
  intro l
  induction l with
  | nil => intro _ _; simp [insertByHeight]
  | cons j rest ih =>
    intro hnd hni
    unfold insertByHeight
    split
    · exact List.nodup_cons.2 ⟨hni, hnd⟩
    · rcases List.nodup_cons.1 hnd with ⟨hj, hrest⟩
      refine List.nodup_cons.2 ⟨?_, ih hrest (fun hc => hni (List.mem_cons_of_mem _ hc))⟩
      rw [mem_insertByHeight]
      rintro (rfl | hc)
      · exact hni (List.mem_cons_self _ _)
      · exact hj hc

/-- The sort order of `shelfPack` contains exactly the texture indices. -/
theorem mem_sortIdxByHeight (dims : List (Nat × Nat)) (x : Nat) :
    x ∈ sortIdxByHeight dims ↔ x < dims.length := by
  unfold sortIdxByHeight
  rw [← List.mem_range (n := dims.length)]
  generalize List.range dims.length = l
  induction l with
  | nil => simp
  | cons a rest ih => simp [List.foldr_cons, mem_insertByHeight, ih]

/-- The sort order of `shelfPack` is duplicate-free. -/
theorem nodup_sortIdxByHeight (dims : List (Nat × Nat)) :
    (sortIdxByHeight dims).Nodup := by
  unfold sortIdxByHeight
  have h : ∀ l : List Nat, l.Nodup →
      ((l.foldr (insertByHeight dims) []).Nodup ∧
        ∀ x, x ∈ l.foldr (insertByHeight dims) [] ↔ x ∈ l) := by
    intro l
    induction l with
    | nil => intro _; simp
    | cons a rest ih =>
      intro hnd
      rcases List.nodup_cons.1 hnd with ⟨ha, hrest⟩
      rcases ih hrest with ⟨ih1, ih2⟩
      constructor
      · exact nodup_insertByHeight dims a _ ih1 (fun hc => ha ((ih2 a).1 hc))
      · intro x
        rw [List.foldr_cons, mem_insertByHeight, ih2, List.mem_cons]
  exact (h _ (List.nodup_range _)).1

/-- A value grows under `or` with its own right shift. -/
theorem le_or_shift (a k : Nat) : a ≤ a ||| (a >>> k) := by
  refine Nat.le_of_testBit ?_
  intro i hi
  rw [Nat.testBit_or, hi]
  rfl

/-- An `or` with a right shift stays under the same power of two. -/
theorem or_shift_lt (a k n : Nat) (h : a < 2 ^ n) : a ||| (a >>> k) < 2 ^ n := by
  refine Nat.or_lt_two_pow h ?_
  calc a >>> k ≤ a := by
        rw [Nat.shiftRight_eq_div_pow]
        exact Nat.div_le_self a (2 ^ k)
    _ < 2 ^ n := h

/-- For arguments between 1 and `2^31`, the 32-bit round-up `nextPow2` does
not wrap and dominates its argument. -/
theorem le_nextPow2 (v : Nat) (h1 : 1 ≤ v) (h2 : v ≤ 2 ^ 31) : v ≤ nextPow2 v := by
  unfold nextPow2
  have hx0 : (v + (2 ^ 32 - 1)) % 2 ^ 32 = v - 1 := by
    have he : v + (2 ^ 32 - 1) = (v - 1) + 1 * 2 ^ 32 := by omega
    rw [he, Nat.add_mul_mod_self_right, Nat.mod_eq_of_lt (by omega)]
  rw [hx0]
  have h0b : v - 1 < 2 ^ 31 := by omega
  have h1a := le_or_shift (v - 1) 1
  have h1b := or_shift_lt (v - 1) 1 31 h0b
  have h2a := le_or_shift ((v - 1) ||| ((v - 1) >>> 1)) 2
  have h2b := or_shift_lt ((v - 1) ||| ((v - 1) >>> 1)) 2 31 h1b
  generalize hA : ((v - 1) ||| ((v - 1) >>> 1)) ||| (((v - 1) ||| ((v - 1) >>> 1)) >>> 2) = A
    at h2a h2b
  have h3a := le_or_shift A 4
  have h3b := or_shift_lt A 4 31 h2b
  generalize hB : A ||| (A >>> 4) = B at h3a h3b
  have h4a := le_or_shift B 8
  have h4b := or_shift_lt B 8 31 h3b
  generalize hC : B ||| (B >>> 8) = C at h4a h4b
  have h5a := le_or_shift C 16
  have h5b := or_shift_lt C 16 31 h4b
  generalize hD : C ||| (C >>> 16) = D at h5a h5b
  dsimp only
  rw [hA, hB, hC, hD]
  rw [Nat.mod_eq_of_lt (by omega)]
  omega

/-- For arguments between 1 and `2^30`, the 32-bit round-up `nextPow2` stays
within `2^30`, hence within the positive range of a signed `int`. -/
theorem nextPow2_le_pow30 (v : Nat) (h1 : 1 ≤ v) (h2 : v ≤ 2 ^ 30) :
    nextPow2 v ≤ 2 ^ 30 := by
  unfold nextPow2
  have hx0 : (v + (2 ^ 32 - 1)) % 2 ^ 32 = v - 1 := by
    have he : v + (2 ^ 32 - 1) = (v - 1) + 1 * 2 ^ 32 := by omega
    rw [he, Nat.add_mul_mod_self_right, Nat.mod_eq_of_lt (by omega)]
  rw [hx0]
  have h0b : v - 1 < 2 ^ 30 := by omega
  have h1b := or_shift_lt (v - 1) 1 30 h0b
  have h2b := or_shift_lt ((v - 1) ||| ((v - 1) >>> 1)) 2 30 h1b
  generalize hA : ((v - 1) ||| ((v - 1) >>> 1)) ||| (((v - 1) ||| ((v - 1) >>> 1)) >>> 2) = A
    at h2b
  have h3b := or_shift_lt A 4 30 h2b
  generalize hB : A ||| (A >>> 4) = B at h3b
  have h4b := or_shift_lt B 8 30 h3b
  generalize hC : B ||| (B >>> 8) = C at h4b
  have h5b := or_shift_lt C 16 30 h4b
  generalize hD : C ||| (C >>> 16) = D at h5b
  dsimp only
  rw [hA, hB, hC, hD]
  rw [Nat.mod_eq_of_lt (by omega)]
  omega

/-- Below `2^31` the signed reinterpretation of a 32-bit value is the value
itself. -/
theorem toInt32_of_lt (n : Nat) (h : n < 2 ^ 31) : toInt32 n = (n : Int) := by
  unfold toInt32
  rw [Nat.mod_eq_of_lt (lt_trans h (by norm_num))]
  rw [if_pos h]

/-- Invariant of the shelf-packing loop over the already-placed texture
indices: every placed region has the texture's dimensions, fits the atlas
width, lies above the running `curY + shelfH` line, respects the current
shelf cursor, and the placed regions are pairwise disjoint. -/
structure ShelfInv (dims : List (Nat × Nat)) (atlasW : Nat) (placed : List Nat)
    (st : List Region × Nat × Nat × Nat) : Prop where
  len : st.1.length = dims.length
  mem : ∀ i ∈ placed, i < dims.length
  dimsEq : ∀ i ∈ placed, (st.1.getD i default).w = (dims.getD i (0, 0)).1 ∧
    (st.1.getD i default).h = (dims.getD i (0, 0)).2
  inW : ∀ i ∈ placed, (st.1.getD i default).x + (st.1.getD i default).w ≤ atlasW
  inH : ∀ i ∈ placed, (st.1.getD i default).y + (st.1.getD i default).h ≤ st.2.2.1 + st.2.2.2
  onShelf : ∀ i ∈ placed, (st.1.getD i default).y = st.2.2.1 →
    (st.1.getD i default).x + (st.1.getD i default).w ≤ st.2.1
  yLe : ∀ i ∈ placed, (st.1.getD i default).y ≤ st.2.2.1
  oldShelf : ∀ i ∈ placed, (st.1.getD i default).y < st.2.2.1 →
    (st.1.getD i default).y + (st.1.getD i default).h ≤ st.2.2.1
  disj : ∀ i ∈ placed, ∀ j ∈ placed, i ≠ j →
    RegionsDisjoint (st.1.getD i default) (st.1.getD j default)

/-- Reading an updated slot of a region list. -/
theorem getD_set_self (l : List Region) (i : Nat) (r : Region) (h : i < l.length) :
    ((l.set i r).getD i default) = r := by
  rw [List.getD_eq_getElem?_getD, List.getElem?_set_eq h]
  rfl

/-- Reading an untouched slot of a region list. -/
theorem getD_set_other (l : List Region) (i j : Nat) (r : Region) (h : j ≠ i) :
    ((l.set i r).getD j default) = l.getD j default := by
  rw [List.getD_eq_getElem?_getD, List.getElem?_set_ne (Ne.symm h),
    ← List.getD_eq_getElem?_getD]

/-- An in-range `getD` read is a member of the list. -/
theorem getD_mem_of_lt {α : Type} (l : List α) (i : Nat) (d : α) (h : i < l.length) :
    l.getD i d ∈ l := by
  have he : l.getD i d = l[i] := by
    rw [List.getD_eq_getElem?_getD, List.getElem?_eq_getElem h]
    rfl
  rw [he]
  exact List.getElem_mem h

/-- One placement step preserves the shelf invariant and adds the new index. -/
theorem shelfStep_inv (dims : List (Nat × Nat)) (atlasW : Nat)
    (hpos : ∀ d ∈ dims, 0 < d.1 ∧ 0 < d.2) (hwle : ∀ d ∈ dims, d.1 ≤ atlasW)
    (placed : List Nat) (st : List Region × Nat × Nat × Nat) (idx : Nat)
    (hidx : idx < dims.length) (hnot : idx ∉ placed)
    (hinv : ShelfInv dims atlasW placed st) :
    ShelfInv dims atlasW (idx :: placed) (shelfStep dims atlasW st idx) := by
  rcases st with ⟨regions, curX, curY, shelfH⟩
  have hd : (dims.getD idx (0, 0)) ∈ dims := getD_mem_of_lt dims idx (0, 0) hidx
  have hw0 : 0 < (dims.getD idx (0, 0)).1 := (hpos _ hd).1
  have hh0 : 0 < (dims.getD idx (0, 0)).2 := (hpos _ hd).2
  have hwa : (dims.getD idx (0, 0)).1 ≤ atlasW := hwle _ hd
  have hlen' : regions.length = dims.length := hinv.len
  have hplaced_h : ∀ i ∈ placed, 0 < (regions.getD i default).h := by
    intro i hi
    rw [(hinv.dimsEq i hi).2]
    exact (hpos _ (getD_mem_of_lt dims i (0, 0) (hinv.mem i hi))).2
  have hne : ∀ i ∈ placed, i ≠ idx := fun i hi hc => hnot (hc ▸ hi)
  have hgetn : ∀ (r : Region), ∀ i ∈ placed,
      ((regions.set idx r).getD i default) = regions.getD i default :=
    fun r i hi => getD_set_other regions idx i r (hne i hi)
  unfold shelfStep
  dsimp only
  by_cases hreset : atlasW < curX + (dims.getD idx (0, 0)).1
  · rw [if_pos hreset]
    dsimp only
    have hget_idx := getD_set_self regions idx
      ⟨0, curY + shelfH, (dims.getD idx (0, 0)).1, (dims.getD idx (0, 0)).2⟩
      (by omega)
    refine ⟨by rw [List.length_set]; exact hlen', ?_, ?_, ?_, ?_, ?_, ?_, ?_, ?_⟩
    · intro i hi
      rcases List.mem_cons.1 hi with rfl | hi
      · exact hidx
      · exact hinv.mem i hi
    · intro i hi
      rcases List.mem_cons.1 hi with rfl | hi
      · rw [hget_idx]; exact ⟨rfl, rfl⟩
      · rw [hgetn _ i hi]; exact hinv.dimsEq i hi
    · intro i hi
      rcases List.mem_cons.1 hi with rfl | hi
      · rw [hget_idx]; dsimp only; omega
      · rw [hgetn _ i hi]; exact hinv.inW i hi
    · intro i hi
      rcases List.mem_cons.1 hi with rfl | hi
      · rw [hget_idx]; dsimp only
        have := Nat.le_max_right 0 (dims.getD i (0, 0)).2
        omega
      · rw [hgetn _ i hi]
        have h1 := hinv.inH i hi
        dsimp only at h1 ⊢
        have := Nat.le_max_left 0 (dims.getD idx (0, 0)).2
        omega
    · intro i hi
      rcases List.mem_cons.1 hi with rfl | hi
      · rw [hget_idx]; dsimp only; omega
      · rw [hgetn _ i hi]
        intro hy
        exfalso
        have h1 := hinv.inH i hi
        have h2 := hplaced_h i hi
        dsimp only at h1 hy
        omega
    · intro i hi
      rcases List.mem_cons.1 hi with rfl | hi
      · rw [hget_idx]
      · rw [hgetn _ i hi]
        have := hinv.yLe i hi
        dsimp only at this ⊢
        omega
    · intro i hi
      rcases List.mem_cons.1 hi with rfl | hi
      · rw [hget_idx]; dsimp only; omega
      · rw [hgetn _ i hi]
        intro _
        have := hinv.inH i hi
        dsimp only at this ⊢
        omega
    · intro i hi j hj hij
      rcases List.mem_cons.1 hi with hieq | himem
      · rcases List.mem_cons.1 hj with hjeq | hjmem
        · exact absurd (hieq.trans hjeq.symm) hij
        · subst hieq
          rw [hget_idx, hgetn _ j hjmem]
          right; right; right
          have h1 := hinv.inH j hjmem
          dsimp only at h1 ⊢
          omega
      · rcases List.mem_cons.1 hj with hjeq | hjmem
        · subst hjeq
          rw [hget_idx, hgetn _ i himem]
          right; right; left
          have h1 := hinv.inH i himem
          dsimp only at h1 ⊢
          omega
        · rw [hgetn _ i himem, hgetn _ j hjmem]
          exact hinv.disj i himem j hjmem hij
  · rw [if_neg hreset]
    dsimp only
    have hget_idx := getD_set_self regions idx
      ⟨curX, curY, (dims.getD idx (0, 0)).1, (dims.getD idx (0, 0)).2⟩
      (by omega)
    refine ⟨by rw [List.length_set]; exact hlen', ?_, ?_, ?_, ?_, ?_, ?_, ?_, ?_⟩
    · intro i hi
      rcases List.mem_cons.1 hi with rfl | hi
      · exact hidx
      · exact hinv.mem i hi
    · intro i hi
      rcases List.mem_cons.1 hi with rfl | hi
      · rw [hget_idx]; exact ⟨rfl, rfl⟩
      · rw [hgetn _ i hi]; exact hinv.dimsEq i hi
    · intro i hi
      rcases List.mem_cons.1 hi with rfl | hi
      · rw [hget_idx]; dsimp only; omega
      · rw [hgetn _ i hi]; exact hinv.inW i hi
    · intro i hi
      rcases List.mem_cons.1 hi with rfl | hi
      · rw [hget_idx]; dsimp only
        have := Nat.le_max_right shelfH (dims.getD i (0, 0)).2
        omega
      · rw [hgetn _ i hi]
        have h1 := hinv.inH i hi
        dsimp only at h1 ⊢
        have := Nat.le_max_left shelfH (dims.getD idx (0, 0)).2
        omega
    · intro i hi
      rcases List.mem_cons.1 hi with rfl | hi
      · rw [hget_idx]; dsimp only; omega
      · rw [hgetn _ i hi]
        intro hy
        have := hinv.onShelf i hi hy
        dsimp only at this ⊢
        omega
    · intro i hi
      rcases List.mem_cons.1 hi with rfl | hi
      · rw [hget_idx]
      · rw [hgetn _ i hi]
        exact hinv.yLe i hi
    · intro i hi
      rcases List.mem_cons.1 hi with rfl | hi
      · rw [hget_idx]; dsimp only; omega
      · rw [hgetn _ i hi]
        exact hinv.oldShelf i hi
    · intro i hi j hj hij
      rcases List.mem_cons.1 hi with hieq | himem
      · rcases List.mem_cons.1 hj with hjeq | hjmem
        · exact absurd (hieq.trans hjeq.symm) hij
        · subst hieq
          rw [hget_idx, hgetn _ j hjmem]
          have hyj := hinv.yLe j hjmem
          dsimp only at hyj
          rcases Nat.lt_or_ge (regions.getD j default).y curY with hlt | hge
          · right; right; right
            have := hinv.oldShelf j hjmem hlt
            dsimp only at this ⊢
            omega
          · have hyeq : (regions.getD j default).y = curY := by omega
            right; left
            have := hinv.onShelf j hjmem hyeq
            dsimp only at this ⊢
            omega
      · rcases List.mem_cons.1 hj with hjeq | hjmem
        · subst hjeq
          rw [hget_idx, hgetn _ i himem]
          have hyi := hinv.yLe i himem
          dsimp only at hyi
          rcases Nat.lt_or_ge (regions.getD i default).y curY with hlt | hge
          · right; right; left
            have := hinv.oldShelf i himem hlt
            dsimp only at this ⊢
            omega
          · have hyeq : (regions.getD i default).y = curY := by omega
            left
            have := hinv.onShelf i himem hyeq
            dsimp only at this ⊢
            omega
        · rw [hgetn _ i himem, hgetn _ j hjmem]
          exact hinv.disj i himem j hjmem hij

/-- The whole placement loop preserves the shelf invariant, accumulating every
processed index. -/
theorem shelfFold_inv (dims : List (Nat × Nat)) (atlasW : Nat)
    (hpos : ∀ d ∈ dims, 0 < d.1 ∧ 0 < d.2) (hwle : ∀ d ∈ dims, d.1 ≤ atlasW) :
    ∀ (order placed : List Nat) (st : List Region × Nat × Nat × Nat),
      (∀ i ∈ order, i < dims.length) → order.Nodup →
      (∀ i ∈ order, i ∉ placed) →
      ShelfInv dims atlasW placed st →
      ShelfInv dims atlasW (order.reverse ++ placed)
        (order.foldl (shelfStep dims atlasW) st) := by
  intro order
  induction order with
  | nil =>
    intro placed st _ _ _ h
    simpa using h
  | cons o os ih =>
    intro placed st hlt hnd hdisj hinv
    rw [List.foldl_cons, List.reverse_cons, List.append_assoc]
    have h1 := shelfStep_inv dims atlasW hpos hwle placed st o
      (hlt o (by simp)) (hdisj o (by simp)) hinv
    have h2 := ih (o :: placed) (shelfStep dims atlasW st o)
      (fun i hi => hlt i (by simp [hi])) (List.nodup_cons.1 hnd).2
      (by
        intro i hi
        rw [List.mem_cons]
        rintro (rfl | hc)
        · exact (List.nodup_cons.1 hnd).1 hi
        · exact hdisj i (by simp [hi]) hc)
      h1
    simpa using h2

/-- The safety contract of `shelfPack` plus the blit bound: pairwise-disjoint
regions inside `[0, atlasW) × [0, curY + shelfH)`, the packed height bounded
by the returned atlas height, and every per-row copy inside the
`atlasW × atlasH × 4` pixel buffer. -/
def ShelfPackSafe (dims : List (Nat × Nat)) (atlasW : Nat) : Prop :=
  (∀ i j, i < dims.length → j < dims.length → i ≠ j →
    RegionsDisjoint ((shelfRegions dims atlasW).getD i default)
      ((shelfRegions dims atlasW).getD j default)) ∧
  (∀ i, i < dims.length →
    ((shelfRegions dims atlasW).getD i default).x
        + ((shelfRegions dims atlasW).getD i default).w ≤ atlasW ∧
    ((shelfRegions dims atlasW).getD i default).y
        + ((shelfRegions dims atlasW).getD i default).h ≤ shelfRawH dims atlasW) ∧
  ((shelfRawH dims atlasW : Int) ≤ shelfAtlasH dims atlasW) ∧
  (∀ i, i < dims.length → ∀ row, row < ((shelfRegions dims atlasW).getD i default).h →
    ((((shelfRegions dims atlasW).getD i default).y + row) * atlasW
        + ((shelfRegions dims atlasW).getD i default).x
        + ((shelfRegions dims atlasW).getD i default).w) * 4
      ≤ atlasW * (shelfAtlasH dims atlasW).toNat * 4)

/-- C10 (amended): for every texture list with positive dimensions and widths
at most `atlasW`, and whose total stacked height `curY + shelfH` is at most
`2^30` (so the 32-bit `nextPow2` round-up stays in the positive range of the
signed `int` out-parameter), the shelf pack is safe: regions are pairwise
disjoint, contained in `[0, atlasW) × [0, curY + shelfH)`, `curY + shelfH` is
at most the returned signed `atlasH`, and every blit row stays inside the
atlas pixel buffer. -/
theorem shelf_pack_safe (dims : List (Nat × Nat)) (atlasW : Nat)
    (hpos : ∀ d ∈ dims, 0 < d.1 ∧ 0 < d.2) (hwle : ∀ d ∈ dims, d.1 ≤ atlasW)
    (hbound : shelfRawH dims atlasW ≤ 2 ^ 30) :
    ShelfPackSafe dims atlasW := by
  have h0 : ShelfInv dims atlasW []
      (List.replicate dims.length default, 0, 0, 0) := by
    refine ⟨by simp, ?_, ?_, ?_, ?_, ?_, ?_, ?_, ?_⟩ <;> simp
  have hfold := shelfFold_inv dims atlasW hpos hwle (sortIdxByHeight dims) []
    (List.replicate dims.length default, 0, 0, 0)
    (fun i hi => (mem_sortIdxByHeight dims i).1 hi) (nodup_sortIdxByHeight dims)
    (by simp) h0
  have hmem : ∀ i, i < dims.length → i ∈ (sortIdxByHeight dims).reverse ++ [] := by
    intro i hi
    rw [List.append_nil, List.mem_reverse, mem_sortIdxByHeight]
    exact hi
  have hinv : ShelfInv dims atlasW ((sortIdxByHeight dims).reverse ++ [])
      (shelfPackSt dims atlasW) := hfold
  have hRawH : shelfRawH dims atlasW
      = (shelfPackSt dims atlasW).2.2.1 + (shelfPackSt dims atlasW).2.2.2 := rfl
  have hUlt : shelfAtlasHU dims atlasW < 2 ^ 31 := by
    rcases Nat.eq_zero_or_pos (shelfRawH dims atlasW) with hz | hp
    · show nextPow2 (shelfRawH dims atlasW) < 2 ^ 31
      rw [hz]
      decide
    · exact lt_of_le_of_lt (nextPow2_le_pow30 _ hp hbound) (by norm_num)
  have hleU : shelfRawH dims atlasW ≤ shelfAtlasHU dims atlasW := by
    rcases Nat.eq_zero_or_pos (shelfRawH dims atlasW) with hz | hp
    · rw [hz]; exact Nat.zero_le _
    · exact le_nextPow2 _ hp (le_trans hbound (by norm_num))
  have hcast : shelfAtlasH dims atlasW = ((shelfAtlasHU dims atlasW : Nat) : Int) :=
    toInt32_of_lt _ hUlt
  have hle : (shelfRawH dims atlasW : Int) ≤ shelfAtlasH dims atlasW := by
    rw [hcast]
    exact_mod_cast hleU
  have hleN : shelfRawH dims atlasW ≤ (shelfAtlasH dims atlasW).toNat := by
    omega
  refine ⟨?_, ?_, hle, ?_⟩
  · intro i j hi hj hij
    exact hinv.disj i (hmem i hi) j (hmem j hj) hij
  · intro i hi
    exact ⟨hinv.inW i (hmem i hi), hinv.inH i (hmem i hi)⟩
  · intro i hi row hrow
    have h1 : ((shelfRegions dims atlasW).getD i default).x
        + ((shelfRegions dims atlasW).getD i default).w ≤ atlasW :=
      hinv.inW i (hmem i hi)
    have h2 : ((shelfRegions dims atlasW).getD i default).y
        + ((shelfRegions dims atlasW).getD i default).h ≤ shelfRawH dims atlasW :=
      hinv.inH i (hmem i hi)
    have h3 : ((shelfRegions dims atlasW).getD i default).y + row + 1
        ≤ (shelfAtlasH dims atlasW).toNat := by omega
    have h4 : (((shelfRegions dims atlasW).getD i default).y + row) * atlasW
        + ((shelfRegions dims atlasW).getD i default).x
        + ((shelfRegions dims atlasW).getD i default).w
        ≤ (((shelfRegions dims atlasW).getD i default).y + row + 1) * atlasW := by
      rw [Nat.succ_mul]
      omega
    have h5 : (((shelfRegions dims atlasW).getD i default).y + row + 1) * atlasW
        ≤ (shelfAtlasH dims atlasW).toNat * atlasW :=
      Nat.mul_le_mul_right atlasW h3
    calc ((((shelfRegions dims atlasW).getD i default).y + row) * atlasW
          + ((shelfRegions dims atlasW).getD i default).x
          + ((shelfRegions dims atlasW).getD i default).w) * 4
        ≤ ((shelfAtlasH dims atlasW).toNat * atlasW) * 4 := by
          exact Nat.mul_le_mul_right 4 (le_trans h4 h5)
      _ = atlasW * (shelfAtlasH dims atlasW).toNat * 4 := by ring

/-- C10, witness: the safety theorem applied to two small textures in a
2-pixel-wide atlas. -/
theorem shelf_pack_safe_witness :
    (∀ d ∈ [((1 : Nat), (1 : Nat)), (2, 1)], 0 < d.1 ∧ 0 < d.2) ∧
    (∀ d ∈ [((1 : Nat), (1 : Nat)), (2, 1)], d.1 ≤ 2) ∧
    shelfRawH [(1, 1), (2, 1)] 2 ≤ 2 ^ 30 ∧
    ShelfPackSafe [(1, 1), (2, 1)] 2 :=
  ⟨by decide, by decide, by decide,
    shelf_pack_safe [(1, 1), (2, 1)] 2 (by decide) (by decide) (by decide)⟩

/-- C10, counterexample: a single 1×(2^30+1) texture — its height fits a
signed `int`, so the input is representable in the program — satisfies the
claim's hypotheses (positive dimensions, width within the atlas), yet
`nextPow2(2^30 + 1) = 2^31` and the `static_cast<int>` at
`texture_atlas.cpp:44` makes the returned `atlasH` negative, so
`curY + shelfH ≤ atlasH` fails (and the `atlasW * atlasH * 4` buffer bound is
meaningless).  At still larger heights, above `2^31`, the unsigned round-up
additionally wraps to 0. -/
theorem shelf_pack_safe_counterexample :
    (∀ d ∈ [((1 : Nat), 2 ^ 30 + 1)], 0 < d.1 ∧ 0 < d.2) ∧
    (∀ d ∈ [((1 : Nat), 2 ^ 30 + 1)], d.1 ≤ 1) ∧
    ¬ ((shelfRawH [(1, 2 ^ 30 + 1)] 1 : Int) ≤ shelfAtlasH [(1, 2 ^ 30 + 1)] 1) := by
  refine ⟨by decide, by decide, by decide⟩

/-! ### Atlas loop helper lemmas (claims C7, C8, C9) -/

/-- Updating preserves list length. -/
theorem updateAt_length {α : Type} : ∀ (l : List α) (i : Nat) (f : α → α),
    (updateAt l i f).length = l.length
  | [], _, _ => rfl
  | _ :: l, 0, f => by simp [updateAt]
  | a :: l, n + 1, f => by
    simp [updateAt, updateAt_length l n f]

/-- Updating out of range is a no-op. -/
theorem updateAt_out_of_range {α : Type} : ∀ (l : List α) (i : Nat) (f : α → α),
    l.length ≤ i → updateAt l i f = l
  | [], _, _, _ => rfl
  | a :: l, 0, f, h => by cases h
  | a :: l, n + 1, f, h => by
    simp only [updateAt, List.cons.injEq, true_and]
    exact updateAt_out_of_range l n f (by simpa using h)

/-- Reading the updated index. -/
theorem getD_updateAt_self {α : Type} (d : α) :
    ∀ (l : List α) (i : Nat) (f : α → α), i < l.length →
      (updateAt l i f).getD i d = f (l.getD i d)
  | [], i, f, h => by cases h
  | a :: l, 0, f, _ => rfl
  | a :: l, n + 1, f, h => by
    simp only [updateAt, List.getD_cons_succ]
    exact getD_updateAt_self d l n f (by simpa using h)

/-- Reading an index other than the updated one. -/
theorem getD_updateAt_other {α : Type} (d : α) :
    ∀ (l : List α) (i j : Nat) (f : α → α), j ≠ i →
      (updateAt l i f).getD j d = l.getD j d
  | [], _, _, _, _ => rfl
  | a :: l, 0, 0, f, h => absurd rfl h
  | a :: l, 0, j + 1, f, _ => rfl
  | a :: l, i + 1, 0, f, _ => rfl
  | a :: l, i + 1, j + 1, f, h => by
    simp only [updateAt, List.getD_cons_succ]
    exact getD_updateAt_other d l i j f (by omega)

/-- Reading through `map` with a default. -/
theorem getD_map {α β : Type} (da : α) (db : β) (f : α → β) :
    ∀ (l : List α) (i : Nat), i < l.length → (l.map f).getD i db = f (l.getD i da)
  | [], i, h => by cases h
  | a :: l, 0, _ => rfl
  | a :: l, i + 1, h => by
    simp only [List.map_cons, List.getD_cons_succ]
    exact getD_map da db f l i (by simpa using h)

/-- Members of `enumFrom` are indexed reads. -/
theorem mem_enumFrom {α : Type} (d : α) :
    ∀ (l : List α) (i : Nat) (p : Nat × α), p ∈ enumFrom i l →
      ∃ j, j < l.length ∧ p.1 = i + j ∧ p.2 = l.getD j d
  | [], _, _, h => by cases h
  | a :: l, i, p, h => by
    rcases List.mem_cons.1 h with rfl | h
    · exact ⟨0, by simp, by simp, rfl⟩
    · rcases mem_enumFrom d l (i + 1) p h with ⟨j, hj, h1, h2⟩
      exact ⟨j + 1, by simpa using hj, by omega, by simpa using h2⟩

/-- Every flattened slot entry is in range of the material table. -/
theorem slotEntries_inrange (mats : List Material) :
    ∀ e ∈ slotEntries mats,
      e.1 < mats.length ∧
      e.2.2.1 < ((mats.getD e.1 default).slots.getD e.2.1 []).length ∧
      e.2.2.2 = (((mats.getD e.1 default).slots.getD e.2.1 []).getD e.2.2.1 default).path := by
  intro e he
  unfold slotEntries at he
  rcases List.mem_flatMap.1 he with ⟨mi, hmi, he2⟩
  rcases List.mem_flatMap.1 he2 with ⟨t, _, he3⟩
  rcases List.mem_map.1 he3 with ⟨si, hsi, rfl⟩
  rcases mem_enumFrom default mats 0 mi hmi with ⟨j, hj, hj1, hj2⟩
  rcases mem_enumFrom default (mi.2.slots.getD t []) 0 si hsi with ⟨k, hk, hk1, hk2⟩
  have hmi1 : mi.1 = j := by omega
  have hsi1 : si.1 = k := by omega
  refine ⟨by omega, ?_, ?_⟩
  · simp only
    rw [hmi1, ← hj2, hsi1]
    exact hk
  · simp only
    rw [hmi1, ← hj2, hsi1, ← hk2]

/-- Any per-position property of the slot entries carries over to the
collected slot references. -/
theorem collectGo_refs_pred (scene : Scene) (opts : AtlasOptions) (fs : FS)
    (P : Nat → Nat → Nat → Prop) :
    ∀ (entries : List (Nat × Nat × Nat × String))
      (acc : List (String × Nat) × List SourceTex × List SlotRef)
      (srcs : List SourceTex) (refs : List SlotRef),
      (∀ e ∈ entries, P e.1 e.2.1 e.2.2.1) →
      (∀ r ∈ acc.2.2, P r.mat r.typ r.slot) →
      collectGo scene opts fs entries acc = .ok (srcs, refs) →
      ∀ r ∈ refs, P r.mat r.typ r.slot := by
  intro entries
  induction entries with
  | nil =>
    intro acc srcs refs _ hacc hok
    rcases acc with ⟨km, s0, r0⟩
    cases hok
    exact hacc
  | cons e rest ih =>
    intro acc srcs refs hent hacc hok
    rcases acc with ⟨km, s0, r0⟩
    rcases e with ⟨m, t, s, key⟩
    unfold collectGo at hok
    have hnewOk : ∀ idx, ∀ r ∈ r0 ++ [(⟨m, t, s, idx⟩ : SlotRef)], P r.mat r.typ r.slot := by
      intro idx r hr
      rcases List.mem_append.1 hr with hr | hr
      · exact hacc r hr
      · rcases List.mem_singleton.1 hr with rfl
        exact hent (m, t, s, key) (by simp)
    cases hla : lookupAssoc km key with
    | some idx =>
      rw [hla] at hok
      exact ih _ srcs refs (fun e he => hent e (by simp [he])) (hnewOk idx) hok
    | none =>
      rw [hla] at hok
      cases hres : resolveKey scene opts fs key with
      | error e2 => rw [hres] at hok; cases hok
      | ok src =>
        rw [hres] at hok
        exact ih _ srcs refs (fun e he => hent e (by simp [he])) (hnewOk s0.length) hok

/-- Collected slot references are in range of the material table. -/
theorem collect_refs_inrange (scene : Scene) (opts : AtlasOptions) (fs : FS)
    (srcs : List SourceTex) (refs : List SlotRef)
    (hcol : collectSources scene opts fs = .ok (srcs, refs)) :
    ∀ r ∈ refs, r.mat < scene.materials.length ∧
      r.slot < ((scene.materials.getD r.mat default).slots.getD r.typ []).length := by
  refine collectGo_refs_pred scene opts fs
    (fun m t s => m < scene.materials.length ∧
      s < ((scene.materials.getD m default).slots.getD t []).length)
    (slotEntries scene.materials) ([], [], []) srcs refs ?_ (by intro r hr; cases hr) hcol
  intro e he
  exact ⟨(slotEntries_inrange scene.materials e he).1,
    (slotEntries_inrange scene.materials e he).2.1⟩

/-- The first-appearance source list of a type is never emptied by later
references. -/
theorem typeSrcIdxs_aux_ne (t : Nat) :
    ∀ (refs : List SlotRef) (acc : List Nat),
      ((∃ r ∈ refs, r.typ = t) ∨ acc ≠ []) →
      refs.foldl
        (fun acc r => if r.typ = t ∧ r.srcIdx ∉ acc then acc ++ [r.srcIdx] else acc)
        acc ≠ [] := by
  intro refs
  induction refs with
  | nil =>
    intro acc h
    rcases h with ⟨r, hr, _⟩ | h
    · cases hr
    · simpa using h
  | cons r rest ih =>
    intro acc h
    rw [List.foldl_cons]
    refine ih _ ?_
    by_cases hc : r.typ = t ∧ r.srcIdx ∉ acc
    · rw [if_pos hc]
      right
      simp
    · rw [if_neg hc]
      rcases h with ⟨r', hr', ht'⟩ | h
      · rcases List.mem_cons.1 hr' with rfl | hmem
        · right
          intro hnil
          subst hnil
          exact hc ⟨ht', by simp⟩
        · exact Or.inl ⟨r', hmem, ht'⟩
      · exact Or.inr h

/-- A type with at least one slot reference packs at least one texture. -/
theorem typeSrcIdxs_ne_of_active (refs : List SlotRef) (t : Nat)
    (h : ∃ r ∈ refs, r.typ = t) : typeSrcIdxs refs t ≠ [] :=
  typeSrcIdxs_aux_ne t refs [] (Or.inl h)

/-- Every active type has at least one packed texture. -/
theorem typeSrcIdxs_ne_of_mem_active (refs : List SlotRef) (t : Nat)
    (h : t ∈ activeTypes refs) : typeSrcIdxs refs t ≠ [] := by
  unfold activeTypes at h
  rcases List.mem_filter.1 h with ⟨_, h2⟩
  rcases List.any_eq_true.1 h2 with ⟨r, hr, ht⟩
  exact typeSrcIdxs_ne_of_active refs t ⟨r, hr, by simpa using ht⟩

/-- Split a list at its first element violating a decidable predicate. -/
theorem first_bad_decomp (p : Nat → Prop) [DecidablePred p] :
    ∀ (l : List Nat), (∃ t ∈ l, ¬ p t) →
      ∃ a t b, l = a ++ t :: b ∧ (∀ u ∈ a, p u) ∧ ¬ p t := by
  intro l
  induction l with
  | nil => rintro ⟨t, ht, _⟩; cases ht
  | cons x xs ih =>
    rintro ⟨t, ht, hnp⟩
    by_cases hx : p x
    · have hxs : ∃ t ∈ xs, ¬ p t := by
        rcases List.mem_cons.1 ht with rfl | hmem
        · exact absurd hx hnp
        · exact ⟨t, hmem, hnp⟩
      rcases ih hxs with ⟨a, t', b, he, ha, hb⟩
      exact ⟨x :: a, t', b, by rw [he, List.cons_append], by
        intro u hu
        rcases List.mem_cons.1 hu with rfl | hu
        · exact hx
        · exact ha u hu, hb⟩
    · exact ⟨[], x, xs, rfl, by simp, hx⟩

/-- The atlas file name for a type. -/
def atlasFilename (t : Nat) : String :=
  "atlas_" ++ typeSuffix t ++ ".png"

/-- The blitted pixel buffer of one type's atlas, recomputed outside the
loop. -/
def atlasPixels (srcs : List SourceTex) (refs : List SlotRef) (t : Nat) : List Nat :=
  blitAll (typeAtlasW srcs refs t) (typeAtlasHU srcs refs t)
    ((typeSrcIdxs refs t).map fun i => (srcs.getD i default).decoded)
    (shelfRegions (typeDims srcs refs t) (typeAtlasW srcs refs t))

/-- The encoded PNG blob of one type's atlas. -/
def atlasBlob (srcs : List SourceTex) (refs : List SlotRef) (t : Nat) : List Nat :=
  0 :: typeAtlasW srcs refs t :: typeAtlasHU srcs refs t :: atlasPixels srcs refs t

/-- The `AtlasInfo` produced for one type. -/
def mkAtlasInfo (srcs : List SourceTex) (refs : List SlotRef) (t : Nat) : AtlasInfo :=
  ⟨atlasFilename t, t, (typeSrcIdxs refs t).length,
    typeAtlasW srcs refs t, typeAtlasHU srcs refs t⟩

/-- The diffuse layout recorded for the UV remap: the diffuse atlas
dimensions and the per-source region table. -/
def diffuseData (srcs : List SourceTex) (refs : List SlotRef) : Nat × Nat × List Region :=
  (typeAtlasW srcs refs 0, typeAtlasHU srcs refs 0,
    diffuseRegionTable srcs.length (typeSrcIdxs refs 0)
      (shelfRegions (typeDims srcs refs 0) (typeAtlasW srcs refs 0)))

/-- Unfolding one successful iteration of the per-type loop. -/
theorem processTypes_cons_good (srcs : List SourceTex) (refs : List SlotRef)
    (opts : AtlasOptions) (t : Nat) (rest : List Nat) (st : TypeFoldState)
    (hne : typeSrcIdxs refs t ≠ [])
    (hgood : typeAtlasH srcs refs t ≤ 8192) :
    processTypes srcs refs opts (t :: rest) st
      = processTypes srcs refs opts rest
          { mats := updateSlotsForType refs t (atlasFilename t) st.mats
            emb := st.emb ++ [⟨.blob (atlasBlob srcs refs t), "png", atlasFilename t⟩]
            written := st.written
              ++ [(joinPath opts.outputDir (atlasFilename t), atlasBlob srcs refs t)]
            infos := st.infos ++ [mkAtlasInfo srcs refs t]
            diffuse := if t = 0 ∧ st.diffuse = none then
                some (typeAtlasW srcs refs t, typeAtlasHU srcs refs t,
                  diffuseRegionTable srcs.length (typeSrcIdxs refs t)
                    (shelfRegions (typeDims srcs refs t) (typeAtlasW srcs refs t)))
              else st.diffuse } := by
  conv_lhs => rw [processTypes]
  rw [if_neg (by simpa using hne)]
  rw [if_neg (by simp only [typeAtlasH] at hgood; omega)]
  dsimp only [encodePng, atlasBlob, atlasPixels, atlasFilename, mkAtlasInfo, typeAtlasHU]
  rw [List.length_map]

/-- Unfolding one failing iteration of the per-type loop. -/
theorem processTypes_cons_bad (srcs : List SourceTex) (refs : List SlotRef)
    (opts : AtlasOptions) (t : Nat) (rest : List Nat) (st : TypeFoldState)
    (hne : typeSrcIdxs refs t ≠ [])
    (hbad : 8192 < typeAtlasH srcs refs t) :
    processTypes srcs refs opts (t :: rest) st
      = (st, some ⟨.AtlasBuildFailed,
          "Atlas height exceeds 8192px for type: " ++ typeSuffix t⟩) := by
  unfold processTypes
  rw [if_neg (by simpa using hne)]
  rw [if_pos (by simp only [typeAtlasH] at hbad; omega)]

/-- Running the per-type loop over types that all fit: no error, and the
infos, embedded textures, materials and diffuse layout all accumulate
deterministically. -/
theorem processTypes_all_good (srcs : List SourceTex) (refs : List SlotRef)
    (opts : AtlasOptions) :
    ∀ (ts : List Nat) (st : TypeFoldState),
      (∀ t ∈ ts, typeSrcIdxs refs t ≠ []) →
      (∀ t ∈ ts, typeAtlasH srcs refs t ≤ 8192) →
      (processTypes srcs refs opts ts st).2 = none ∧
      (processTypes srcs refs opts ts st).1.infos
        = st.infos ++ ts.map (mkAtlasInfo srcs refs) ∧
      (processTypes srcs refs opts ts st).1.emb
        = st.emb ++ ts.map (fun t =>
            (⟨.blob (atlasBlob srcs refs t), "png", atlasFilename t⟩ : AiTexture)) ∧
      (processTypes srcs refs opts ts st).1.mats
        = ts.foldl (fun ms u => updateSlotsForType refs u (atlasFilename u) ms) st.mats ∧
      (processTypes srcs refs opts ts st).1.diffuse
        = (if 0 ∈ ts ∧ st.diffuse = none then some (diffuseData srcs refs)
            else st.diffuse) := by
  intro ts
  induction ts with
  | nil =>
    intro st _ _
    unfold processTypes
    exact ⟨rfl, by simp, by simp, rfl, by simp⟩
  | cons t rest ih =>
    intro st hne hgood
    rw [processTypes_cons_good srcs refs opts t rest st (hne t (by simp))
      (hgood t (by simp))]
    rcases ih _ (fun u hu => hne u (by simp [hu])) (fun u hu => hgood u (by simp [hu]))
      with ⟨h1, h2, h3, h4, h5⟩
    refine ⟨h1, ?_, ?_, ?_, ?_⟩
    · rw [h2]; simp
    · rw [h3]; simp
    · rw [h4]; simp
    · rw [h5]
      dsimp only
      by_cases hd : st.diffuse = none
      · by_cases ht0 : t = 0
        · subst ht0
          simp [hd, diffuseData]
        · have h0t : ¬ ((0 : Nat) = t) := fun h => ht0 h.symm
          simp [hd, ht0, h0t]
      · simp [hd]

/-- Running the per-type loop into its first failing type: the loop stops with
`AtlasBuildFailed` and the materials of the earlier types are already
rewritten. -/
theorem processTypes_first_bad (srcs : List SourceTex) (refs : List SlotRef)
    (opts : AtlasOptions) :
    ∀ (a : List Nat) (t : Nat) (b : List Nat) (st : TypeFoldState),
      (∀ u ∈ a ++ t :: b, typeSrcIdxs refs u ≠ []) →
      (∀ u ∈ a, typeAtlasH srcs refs u ≤ 8192) →
      8192 < typeAtlasH srcs refs t →
      (processTypes srcs refs opts (a ++ t :: b) st).2
        = some ⟨.AtlasBuildFailed,
            "Atlas height exceeds 8192px for type: " ++ typeSuffix t⟩ ∧
      (processTypes srcs refs opts (a ++ t :: b) st).1.mats
        = a.foldl (fun ms u => updateSlotsForType refs u (atlasFilename u) ms) st.mats := by
  intro a
  induction a with
  | nil =>
    intro t b st hne _ hbad
    rw [List.nil_append,
      processTypes_cons_bad srcs refs opts t b st (hne t (by simp)) hbad]
    exact ⟨rfl, rfl⟩
  | cons u a' ih =>
    intro t b st hne hgood hbad
    rw [List.cons_append,
      processTypes_cons_good srcs refs opts u (a' ++ t :: b) st
        (hne u (by simp)) (hgood u (by simp))]
    refine ⟨(ih t b _ (fun v hv => hne v (by simp [hv]))
      (fun v hv => hgood v (by simp [hv])) hbad).1, ?_⟩
    rw [(ih t b _ (fun v hv => hne v (by simp [hv]))
      (fun v hv => hgood v (by simp [hv])) hbad).2]
    simp

/-! ### Material slot cells under the atlas slot rewrite -/

/-- One material texture slot, read with defaults. -/
def slotCell (mats : List Material) (m t s : Nat) : TexSlot :=
  ((mats.getD m default).slots.getD t []).getD s default

/-- The slot-list length of one (material, type) pair, read with defaults. -/
def slotLen (mats : List Material) (m t : Nat) : Nat :=
  ((mats.getD m default).slots.getD t []).length

/-- One slot write preserves every slot-list length. -/
theorem slotLen_slotStep (ms : List Material) (mi si u : Nat) (fn : String) (m t : Nat) :
    slotLen (updateAt ms mi fun mat =>
        ⟨updateAt mat.slots u fun sl => updateAt sl si fun _ => ⟨fn, 1, 1⟩⟩) m t
      = slotLen ms m t := by
  by_cases hm : m = mi
  · subst hm
    by_cases hlt : m < ms.length
    · unfold slotLen
      rw [getD_updateAt_self default ms m _ hlt]
      dsimp only
      by_cases ht : t = u
      · subst ht
        by_cases hu : t < (ms.getD m default).slots.length
        · rw [getD_updateAt_self ([] : List TexSlot) _ t _ hu]
          rw [updateAt_length]
        · rw [updateAt_out_of_range _ _ _ (Nat.le_of_not_lt hu)]
      · rw [getD_updateAt_other ([] : List TexSlot) _ _ _ _ ht]
    · rw [updateAt_out_of_range _ _ _ (Nat.le_of_not_lt hlt)]
  · unfold slotLen
    rw [getD_updateAt_other default _ _ _ _ hm]

/-- Unfolding one step of the slot-rewrite fold. -/
theorem updateSlotsForType_cons (r : SlotRef) (rest : List SlotRef) (u : Nat)
    (fn : String) (ms : List Material) :
    updateSlotsForType (r :: rest) u fn ms
      = updateSlotsForType rest u fn
          (if r.typ = u then
            updateAt ms r.mat fun mat =>
              ⟨updateAt mat.slots u fun sl => updateAt sl r.slot fun _ => ⟨fn, 1, 1⟩⟩
          else ms) := by
  rfl

/-- The slot rewrite of one type preserves the material count and every
slot-list length. -/
theorem updateSlotsForType_shape (u : Nat) (fn : String) :
    ∀ (refs : List SlotRef) (ms : List Material),
      (updateSlotsForType refs u fn ms).length = ms.length ∧
      ∀ m t, slotLen (updateSlotsForType refs u fn ms) m t = slotLen ms m t := by
  intro refs
  induction refs with
  | nil => exact fun ms => ⟨rfl, fun _ _ => rfl⟩
  | cons r rest ih =>
    intro ms
    rw [updateSlotsForType_cons]
    by_cases hr : r.typ = u
    · rw [if_pos hr]
      refine ⟨(ih _).1.trans (updateAt_length _ _ _),
        fun m t => ((ih _).2 m t).trans (slotLen_slotStep ms r.mat r.slot u fn m t)⟩
    · rw [if_neg hr]
      exact ih ms

/-- The slot rewrite of one type leaves slots of every other type unchanged. -/
theorem slotCell_updateSlotsForType_ne (u : Nat) (fn : String) :
    ∀ (refs : List SlotRef) (ms : List Material) (m t s : Nat), t ≠ u →
      slotCell (updateSlotsForType refs u fn ms) m t s = slotCell ms m t s := by
  intro refs
  induction refs with
  | nil => intro ms m t s _; rfl
  | cons r rest ih =>
    intro ms m t s ht
    rw [updateSlotsForType_cons, ih _ m t s ht]
    by_cases hr : r.typ = u
    · rw [if_pos hr]
      by_cases hm : m = r.mat
      · subst hm
        by_cases hlt : r.mat < ms.length
        · unfold slotCell
          rw [getD_updateAt_self default ms r.mat _ hlt]
          dsimp only
          rw [getD_updateAt_other ([] : List TexSlot) _ _ _ _ ht]
        · rw [updateAt_out_of_range _ _ _ (Nat.le_of_not_lt hlt)]
      · unfold slotCell
        rw [getD_updateAt_other default _ _ _ _ hm]
    · rw [if_neg hr]

/-- One in-range slot write sets exactly the targeted cell. -/
theorem slotCell_slotStep_write (ms : List Material) (mi si u : Nat) (fn : String)
    (hm : mi < ms.length) (hs : si < slotLen ms mi u) :
    slotCell (updateAt ms mi fun mat =>
        ⟨updateAt mat.slots u fun sl => updateAt sl si fun _ => ⟨fn, 1, 1⟩⟩) mi u si
      = ⟨fn, 1, 1⟩ := by
  unfold slotLen at hs
  have hu : u < (ms.getD mi default).slots.length := by
    by_contra hnu
    rw [List.getD_eq_default _ _ (Nat.le_of_not_lt hnu)] at hs
    exact absurd hs (Nat.not_lt_zero _)
  unfold slotCell
  rw [getD_updateAt_self default ms mi _ hm]
  dsimp only
  rw [getD_updateAt_self ([] : List TexSlot) _ u _ hu]
  rw [getD_updateAt_self (default : TexSlot) _ si _ hs]

/-- One slot write either leaves a same-type cell unchanged or sets it to the
written slot value. -/
theorem slotCell_slotStep_cases (ms : List Material) (mi si u : Nat) (fn : String)
    (m s : Nat) :
    slotCell (updateAt ms mi fun mat =>
        ⟨updateAt mat.slots u fun sl => updateAt sl si fun _ => ⟨fn, 1, 1⟩⟩) m u s
      = slotCell ms m u s ∨
    slotCell (updateAt ms mi fun mat =>
        ⟨updateAt mat.slots u fun sl => updateAt sl si fun _ => ⟨fn, 1, 1⟩⟩) m u s
      = ⟨fn, 1, 1⟩ := by
  by_cases hm : m = mi
  · subst hm
    by_cases hlt : m < ms.length
    · by_cases hu : u < (ms.getD m default).slots.length
      · by_cases hss : s = si
        · subst hss
          by_cases hsl : s < ((ms.getD m default).slots.getD u []).length
          · right
            exact slotCell_slotStep_write ms m s u fn hlt hsl
          · left
            unfold slotCell
            rw [getD_updateAt_self default ms m _ hlt]
            dsimp only
            rw [getD_updateAt_self ([] : List TexSlot) _ u _ hu]
            rw [updateAt_out_of_range _ _ _ (Nat.le_of_not_lt hsl)]
        · left
          unfold slotCell
          rw [getD_updateAt_self default ms m _ hlt]
          dsimp only
          rw [getD_updateAt_self ([] : List TexSlot) _ u _ hu]
          rw [getD_updateAt_other (default : TexSlot) _ _ _ _ hss]
      · left
        unfold slotCell
        rw [getD_updateAt_self default ms m _ hlt]
        dsimp only
        rw [updateAt_out_of_range _ _ _ (Nat.le_of_not_lt hu)]
    · left
      rw [updateAt_out_of_range _ _ _ (Nat.le_of_not_lt hlt)]
  · left
    unfold slotCell
    rw [getD_updateAt_other default _ _ _ _ hm]

/-- A cell already holding the written slot value keeps it through the whole
slot rewrite of its type. -/
theorem slotCell_updateSlotsForType_keep (u : Nat) (fn : String) :
    ∀ (refs : List SlotRef) (ms : List Material) (m s : Nat),
      slotCell ms m u s = ⟨fn, 1, 1⟩ →
      slotCell (updateSlotsForType refs u fn ms) m u s = ⟨fn, 1, 1⟩ := by
  intro refs
  induction refs with
  | nil => intro ms m s h; exact h
  | cons r rest ih =>
    intro ms m s h
    rw [updateSlotsForType_cons]
    by_cases hr : r.typ = u
    · rw [if_pos hr]
      rcases slotCell_slotStep_cases ms r.mat r.slot u fn m s with hc | hc
      · exact ih _ m s (hc.trans h)
      · exact ih _ m s hc
    · rw [if_neg hr]
      exact ih ms m s h

/-- After the slot rewrite of a type, every in-range referenced slot of that
type holds the atlas filename with clamp wrap modes. -/
theorem slotCell_updateSlotsForType_self (u : Nat) (fn : String) :
    ∀ (refs : List SlotRef) (ms : List Material) (r : SlotRef), r ∈ refs → r.typ = u →
      r.mat < ms.length → r.slot < slotLen ms r.mat u →
      slotCell (updateSlotsForType refs u fn ms) r.mat u r.slot = ⟨fn, 1, 1⟩ := by
  intro refs
  induction refs with
  | nil => intro ms r hr; cases hr
  | cons r0 rest ih =>
    intro ms r hr htyp hm hs
    rw [updateSlotsForType_cons]
    rcases List.mem_cons.1 hr with rfl | hr'
    · rw [if_pos htyp]
      exact slotCell_updateSlotsForType_keep u fn rest _ r.mat r.slot
        (slotCell_slotStep_write ms r.mat r.slot u fn hm hs)
    · by_cases h0 : r0.typ = u
      · rw [if_pos h0]
        exact ih _ r hr' htyp
          (by rw [updateAt_length]; exact hm)
          (by rw [slotLen_slotStep]; exact hs)
      · rw [if_neg h0]
        exact ih ms r hr' htyp hm hs

/-- The per-type loop visits each type at most once. -/
theorem activeTypes_nodup (refs : List SlotRef) : (activeTypes refs).Nodup :=
  (List.nodup_range numTexTypes).filter _

/-- The per-type slot-rewrite fold preserves the material shape. -/
theorem foldTypes_shape (refs : List SlotRef) :
    ∀ (l : List Nat) (ms : List Material),
      ((l.foldl (fun ms v => updateSlotsForType refs v (atlasFilename v) ms) ms).length
          = ms.length) ∧
      ∀ m t,
        slotLen (l.foldl (fun ms v => updateSlotsForType refs v (atlasFilename v) ms) ms) m t
          = slotLen ms m t := by
  intro l
  induction l with
  | nil => exact fun ms => ⟨rfl, fun _ _ => rfl⟩
  | cons v l2 ih =>
    intro ms
    rw [List.foldl_cons]
    refine ⟨(ih _).1.trans (updateSlotsForType_shape v (atlasFilename v) refs ms).1,
      fun m t => ((ih _).2 m t).trans
        ((updateSlotsForType_shape v (atlasFilename v) refs ms).2 m t)⟩

/-- The per-type slot-rewrite fold never touches slots of a type it does not
visit. -/
theorem foldTypes_cell_ne (refs : List SlotRef) :
    ∀ (l : List Nat) (ms : List Material) (m t s : Nat), t ∉ l →
      slotCell (l.foldl (fun ms v => updateSlotsForType refs v (atlasFilename v) ms) ms) m t s
        = slotCell ms m t s := by
  intro l
  induction l with
  | nil => intro ms m t s _; rfl
  | cons v l2 ih =>
    intro ms m t s ht
    rw [List.foldl_cons, ih _ m t s (fun h => ht (List.mem_cons_of_mem v h))]
    exact slotCell_updateSlotsForType_ne v (atlasFilename v) refs ms m t s
      (fun h => ht (by rw [h]; exact List.mem_cons_self v l2))

/-- After the per-type slot-rewrite fold over distinct types, every in-range
referenced slot of a visited type holds that type's atlas filename with clamp
wrap modes. -/
theorem foldTypes_cell_self (refs : List SlotRef) :
    ∀ (l : List Nat) (ms : List Material) (u : Nat) (r : SlotRef),
      l.Nodup → u ∈ l → r ∈ refs → r.typ = u →
      r.mat < ms.length → r.slot < slotLen ms r.mat u →
      slotCell (l.foldl (fun ms v => updateSlotsForType refs v (atlasFilename v) ms) ms)
        r.mat u r.slot = ⟨atlasFilename u, 1, 1⟩ := by
  intro l
  induction l with
  | nil => intro ms u r _ hu; cases hu
  | cons v l2 ih =>
    intro ms u r hnd hu hr htyp hm hs
    rw [List.foldl_cons]
    rcases List.mem_cons.1 hu with rfl | hu'
    · rw [foldTypes_cell_ne refs l2 _ r.mat u r.slot (List.nodup_cons.1 hnd).1]
      exact slotCell_updateSlotsForType_self u (atlasFilename u) refs ms r hr htyp hm hs
    · exact ih (updateSlotsForType refs v (atlasFilename v) ms) u r
        (List.nodup_cons.1 hnd).2 hu' hr htyp
        (by rw [(updateSlotsForType_shape v (atlasFilename v) refs ms).1]; exact hm)
        (by rw [(updateSlotsForType_shape v (atlasFilename v) refs ms).2 r.mat u]; exact hs)

/-! ### Claim C7 -/

/-- C7 (amended): for every active texture type the produced `AtlasInfo`
width is `min(8192, nextPow2(maxW * ceilSqrt(n)))` over that type's unique
textures and its height is the unsigned power-of-two round-up of the packed
`curY + shelfH`; with the PNG encoder and the atlas file writes modelled as
total collaborators, `buildAtlas` returns the `AtlasBuildFailed` error iff
the *signed* `atlasH` out-parameter of some active type exceeds 8192 — not
the unsigned round-up the original claim compares, which the guard misses
when the signed cast goes negative; on success the returned infos are exactly
one record per active type in canonical order. -/
theorem atlas_dims_and_failure (scene : Scene) (opts : AtlasOptions) (fs : FS)
    (srcs : List SourceTex) (refs : List SlotRef)
    (hcol : collectSources scene opts fs = .ok (srcs, refs))
    (hne : srcs ≠ []) :
    (∀ t ∈ activeTypes refs,
        (mkAtlasInfo srcs refs t).width
            = min 8192 (nextPow2 (typeMaxW srcs refs t
                * ceilSqrtNat (typeSrcIdxs refs t).length)) ∧
        (mkAtlasInfo srcs refs t).height = nextPow2 (typeRawH srcs refs t)) ∧
    ((∃ e, (buildAtlas scene opts fs).result = .error e ∧ e.code = .AtlasBuildFailed)
        ↔ ∃ t ∈ activeTypes refs, 8192 < typeAtlasH srcs refs t) ∧
    (∀ infos, (buildAtlas scene opts fs).result = .ok infos →
        infos = (activeTypes refs).map (mkAtlasInfo srcs refs)) := by
  have hnemem : ∀ u ∈ activeTypes refs, typeSrcIdxs refs u ≠ [] :=
    fun u hu => typeSrcIdxs_ne_of_mem_active refs u hu
  constructor
  · intro t _
    constructor
    · show typeAtlasW srcs refs t = _
      unfold typeAtlasW
      rw [Nat.min_comm]
      have hlen : (typeDims srcs refs t).length = (typeSrcIdxs refs t).length := by
        unfold typeDims
        rw [List.length_map]
      rw [hlen]
    · rfl
  · unfold buildAtlas
    rw [hcol]
    dsimp only
    rw [if_neg hne]
    rcases hpt : processTypes srcs refs opts (activeTypes refs)
        ⟨scene.materials, [], [], [], none⟩ with ⟨st, oe⟩
    cases oe with
    | none =>
      have hallgood : ∀ u ∈ activeTypes refs, typeAtlasH srcs refs u ≤ 8192 := by
        by_contra hn
        push_neg at hn
        rcases hn with ⟨t, ht, hbad⟩
        rcases first_bad_decomp (fun u => typeAtlasH srcs refs u ≤ 8192) (activeTypes refs)
          ⟨t, ht, not_le.2 hbad⟩ with ⟨a, u, b, hsplit, hgd, hbd⟩
        have hfb := processTypes_first_bad srcs refs opts a u b
          ⟨scene.materials, [], [], [], none⟩
          (fun v hv => hnemem v (by rw [hsplit]; exact hv)) hgd (not_le.1 hbd)
        rw [← hsplit, hpt] at hfb
        exact Option.noConfusion hfb.1
      dsimp only
      refine ⟨⟨?_, ?_⟩, ?_⟩
      · rintro ⟨e, he, _⟩
        exact Except.noConfusion he
      · rintro ⟨t, ht, hbad⟩
        exact absurd (hallgood t ht) (not_le.2 hbad)
      · intro infos h
        have hall := processTypes_all_good srcs refs opts (activeTypes refs)
          ⟨scene.materials, [], [], [], none⟩ hnemem hallgood
        have h2 := hall.2.1
        rw [hpt] at h2
        have h3 : st.infos
            = ([] : List AtlasInfo) ++ (activeTypes refs).map (mkAtlasInfo srcs refs) := h2
        rw [← Except.ok.inj h]
        exact h3.trans (List.nil_append _)
    | some e0 =>
      dsimp only
      refine ⟨⟨?_, ?_⟩, ?_⟩
      · rintro ⟨e, _, _⟩
        by_contra hnot
        push_neg at hnot
        have hall := processTypes_all_good srcs refs opts (activeTypes refs)
          ⟨scene.materials, [], [], [], none⟩ hnemem hnot
        have h2 := hall.1
        rw [hpt] at h2
        exact Option.noConfusion h2
      · rintro ⟨t, ht, hbad⟩
        rcases first_bad_decomp (fun u => typeAtlasH srcs refs u ≤ 8192) (activeTypes refs)
          ⟨t, ht, not_le.2 hbad⟩ with ⟨a, u, b, hsplit, hgd, hbd⟩
        have hfb := processTypes_first_bad srcs refs opts a u b
          ⟨scene.materials, [], [], [], none⟩
          (fun v hv => hnemem v (by rw [hsplit]; exact hv)) hgd (not_le.1 hbd)
        rw [← hsplit, hpt] at hfb
        exact ⟨e0, rfl, by rw [Option.some.inj hfb.1]⟩
      · intro infos h
        exact Except.noConfusion h

/-- A scene whose single embedded diffuse texture is 1×(2^30+1): the height
fits a signed `int`, so the input is representable in the program; the packed
raw height is 2^30+1 and its unsigned round-up is 2^31. -/
def wrapScene : Scene :=
  ⟨[], [⟨[[⟨"*0", 0, 0⟩]]⟩], [⟨.argb 1 (2 ^ 30 + 1) [], "png", "t0.png"⟩]⟩

/-- The source collected from `wrapScene`. -/
def wrapSrcs : List SourceTex := [⟨⟨1, 2 ^ 30 + 1, [], "png"⟩, none⟩]

/-- The slot reference collected from `wrapScene`. -/
def wrapRefs : List SlotRef := [⟨0, 0, 0, 0⟩]

/-- C7, counterexample: on `wrapScene` the computed atlas height
`next_pow2(curY + shelfH) = 2^31` exceeds 8192, yet `buildAtlas` does not
return the `AtlasBuildFailed` error the claim's iff demands, because the
guard at `texture_atlas.cpp:264` compares the signed cast of that height,
which is negative.  (Past the missed guard the C++ aborts on the oversized
`atlasW * atlasH * 4` allocation rather than completing as the model does;
either way no `AtlasBuildFailed` is returned.) -/
theorem atlas_height_overflow_counterexample :
    8192 < nextPow2 (typeRawH wrapSrcs wrapRefs 0) ∧
    typeAtlasH wrapSrcs wrapRefs 0 < 0 ∧
    ∀ e, (buildAtlas wrapScene ⟨"m", "o"⟩ []).result ≠ .error e := by
  refine ⟨by decide, by decide, ?_⟩
  intro e
  have hcol : collectSources wrapScene ⟨"m", "o"⟩ [] = .ok (wrapSrcs, wrapRefs) := by decide
  have hat : activeTypes wrapRefs = [0] := by decide
  have hall := processTypes_all_good wrapSrcs wrapRefs ⟨"m", "o"⟩ [0]
    ⟨wrapScene.materials, [], [], [], none⟩ (by decide) (by decide)
  unfold buildAtlas
  rw [hcol]
  dsimp only
  rw [if_neg (by decide), hat]
  rcases hpt : processTypes wrapSrcs wrapRefs ⟨"m", "o"⟩ [0]
      ⟨wrapScene.materials, [], [], [], none⟩ with ⟨st, oe⟩
  rw [hpt] at hall
  have hoe : oe = none := hall.1
  subst hoe
  dsimp only
  exact fun h => Except.noConfusion h

/-- A scene with one material whose diffuse slot references one 1x1 embedded
texture. -/
def atlasScene : Scene :=
  ⟨[], [⟨[[⟨"*0", 0, 0⟩]]⟩], [⟨.argb 1 1 [(1, 2, 3, 4)], "png", "t0.png"⟩]⟩

/-- The sources collected from `atlasScene`. -/
def atlasSrcs : List SourceTex := [⟨⟨1, 1, [1, 2, 3, 4], "png"⟩, none⟩]

/-- The slot references collected from `atlasScene`. -/
def atlasRefs : List SlotRef := [⟨0, 0, 0, 0⟩]

/-- C7, witness: the dimension and failure characterisation applied to the
one-texture scene. -/
theorem atlas_dims_and_failure_witness :
    (collectSources atlasScene ⟨"m", "o"⟩ [] = .ok (atlasSrcs, atlasRefs)) ∧
    ((∀ t ∈ activeTypes atlasRefs,
        (mkAtlasInfo atlasSrcs atlasRefs t).width
            = min 8192 (nextPow2 (typeMaxW atlasSrcs atlasRefs t
                * ceilSqrtNat (typeSrcIdxs atlasRefs t).length)) ∧
        (mkAtlasInfo atlasSrcs atlasRefs t).height
            = nextPow2 (typeRawH atlasSrcs atlasRefs t)) ∧
      ((∃ e, (buildAtlas atlasScene ⟨"m", "o"⟩ []).result = .error e ∧
            e.code = .AtlasBuildFailed)
          ↔ ∃ t ∈ activeTypes atlasRefs, 8192 < typeAtlasH atlasSrcs atlasRefs t) ∧
      (∀ infos, (buildAtlas atlasScene ⟨"m", "o"⟩ []).result = .ok infos →
          infos = (activeTypes atlasRefs).map (mkAtlasInfo atlasSrcs atlasRefs))) :=
  ⟨by decide,
    atlas_dims_and_failure atlasScene ⟨"m", "o"⟩ [] atlasSrcs atlasRefs
      (by decide) (by decide)⟩

/-! ### Claim C9 -/

/-- C9: `buildAtlas` is not atomic on error: when source collection succeeds
with a non-empty source list and the per-type loop fails at type `t` after the
earlier types `a` packed successfully, the returned scene has its embedded
texture array already freed and the material slots of every earlier type
already rewritten to that type's atlas filename with clamp wrap modes. -/
theorem build_atlas_error_not_atomic (scene : Scene) (opts : AtlasOptions) (fs : FS)
    (srcs : List SourceTex) (refs : List SlotRef) (a : List Nat) (t : Nat) (b : List Nat)
    (hcol : collectSources scene opts fs = .ok (srcs, refs))
    (hne : srcs ≠ [])
    (hsplit : activeTypes refs = a ++ t :: b)
    (hgood : ∀ u ∈ a, typeAtlasH srcs refs u ≤ 8192)
    (hbad : 8192 < typeAtlasH srcs refs t) :
    (buildAtlas scene opts fs).result
      = .error ⟨.AtlasBuildFailed,
          "Atlas height exceeds 8192px for type: " ++ typeSuffix t⟩ ∧
    (buildAtlas scene opts fs).scene.textures = [] ∧
    (buildAtlas scene opts fs).scene.materials
      = a.foldl (fun ms u => updateSlotsForType refs u (atlasFilename u) ms)
          scene.materials ∧
    ∀ u ∈ a, ∀ r ∈ refs, r.typ = u →
      slotCell (buildAtlas scene opts fs).scene.materials r.mat u r.slot
        = ⟨atlasFilename u, 1, 1⟩ := by
  have hnemem : ∀ v ∈ a ++ t :: b, typeSrcIdxs refs v ≠ [] := by
    intro v hv
    exact typeSrcIdxs_ne_of_mem_active refs v (by rw [hsplit]; exact hv)
  have hfb := processTypes_first_bad srcs refs opts a t b
    ⟨scene.materials, [], [], [], none⟩ hnemem hgood hbad
  unfold buildAtlas
  rw [hcol]
  dsimp only
  rw [if_neg hne, hsplit]
  rcases hpt : processTypes srcs refs opts (a ++ t :: b)
      ⟨scene.materials, [], [], [], none⟩ with ⟨st, oe⟩
  rw [hpt] at hfb
  have hoe : oe = some ⟨.AtlasBuildFailed,
      "Atlas height exceeds 8192px for type: " ++ typeSuffix t⟩ := hfb.1
  subst hoe
  dsimp only
  refine ⟨rfl, rfl, hfb.2, ?_⟩
  intro u hu r hr htyp
  have hin := collect_refs_inrange scene opts fs srcs refs hcol r hr
  have hnd : (a ++ t :: b).Nodup := by
    rw [← hsplit]
    exact activeTypes_nodup refs
  have hnda : a.Nodup := List.Nodup.sublist (List.sublist_append_left a (t :: b)) hnd
  have hs : r.slot < slotLen scene.materials r.mat u := by
    have h2 := hin.2
    rw [htyp] at h2
    exact h2
  have hcell := foldTypes_cell_self refs a scene.materials u r hnda hu hr htyp hin.1 hs
  rw [← hfb.2] at hcell
  exact hcell

/-- A scene whose diffuse atlas packs but whose specular texture is 8193px
tall, so the specular atlas height rounds up to 16384 and the build fails
after the diffuse pass. -/
def atlasFailScene : Scene :=
  ⟨[], [⟨[[⟨"*0", 0, 0⟩], [⟨"*1", 0, 0⟩]]⟩],
    [⟨.argb 1 1 [(1, 2, 3, 4)], "png", "t0.png"⟩, ⟨.argb 1 8193 [], "png", "t1.png"⟩]⟩

/-- The sources collected from `atlasFailScene`. -/
def atlasFailSrcs : List SourceTex :=
  [⟨⟨1, 1, [1, 2, 3, 4], "png"⟩, none⟩, ⟨⟨1, 8193, [], "png"⟩, none⟩]

/-- The slot references collected from `atlasFailScene`. -/
def atlasFailRefs : List SlotRef := [⟨0, 0, 0, 0⟩, ⟨0, 1, 0, 1⟩]

/-- C9, witness: the non-atomicity theorem applied to the scene whose
specular atlas overflows after the diffuse atlas already packed. -/
theorem build_atlas_error_not_atomic_witness :
    (collectSources atlasFailScene ⟨"m", "o"⟩ [] = .ok (atlasFailSrcs, atlasFailRefs)) ∧
    ((buildAtlas atlasFailScene ⟨"m", "o"⟩ []).result
        = .error ⟨.AtlasBuildFailed,
            "Atlas height exceeds 8192px for type: " ++ typeSuffix 1⟩ ∧
      (buildAtlas atlasFailScene ⟨"m", "o"⟩ []).scene.textures = [] ∧
      (buildAtlas atlasFailScene ⟨"m", "o"⟩ []).scene.materials
        = [0].foldl (fun ms u => updateSlotsForType atlasFailRefs u (atlasFilename u) ms)
            atlasFailScene.materials ∧
      ∀ u ∈ [0], ∀ r ∈ atlasFailRefs, r.typ = u →
        slotCell (buildAtlas atlasFailScene ⟨"m", "o"⟩ []).scene.materials r.mat u r.slot
          = ⟨atlasFilename u, 1, 1⟩) :=
  ⟨by decide,
    build_atlas_error_not_atomic atlasFailScene ⟨"m", "o"⟩ [] atlasFailSrcs atlasFailRefs
      [0] 1 [] (by decide) (by decide) (by decide) (by decide) (by decide)⟩

/-! ### Claim C8 -/

instance : Inhabited Mesh := ⟨⟨0, [], none, none, none, [], [], [], 0, []⟩⟩

/-- C8: when `buildAtlas` succeeds and a diffuse atlas was built, the meshes
of the returned scene are the UV remap of the original meshes over the diffuse
layout; the remap rewrites, for every mesh with a valid material index, a
resolved diffuse source and a region of non-zero area, every UV of every
present channel to `(u0 + u*us, v0 + v*vs)` with `u0 = reg.x/atlasW`,
`v0 = reg.y/atlasH`, `us = reg.w/atlasW`, `vs = reg.h/atlasH`, leaving the
third component unchanged; and any original UV in `[0,1]x[0,1]` lands in
`[u0, u0+us] x [v0, v0+vs]`. -/
theorem uv_remap_inside_region (scene : Scene) (opts : AtlasOptions) (fs : FS)
    (srcs : List SourceTex) (refs : List SlotRef)
    (hcol : collectSources scene opts fs = .ok (srcs, refs))
    (hne : srcs ≠ [])
    (hgood : ∀ u ∈ activeTypes refs, typeAtlasH srcs refs u ≤ 8192)
    (hdiff : 0 ∈ activeTypes refs) :
    ((buildAtlas scene opts fs).scene.meshes
      = remapUVs scene.meshes scene.materials.length
          (matToDiffuseSrc scene.materials.length refs)
          (diffuseData srcs refs).2.2 (diffuseData srcs refs).1
          (diffuseData srcs refs).2.1) ∧
    ∀ (meshes : List Mesh) (M : Nat) (m2s : List Int) (regs : List Region) (aw ah : Nat)
      (i : Nat), i < meshes.length →
      ∀ mesh, meshes.getD i default = mesh →
      mesh.materialIndex < M →
      ¬ m2s.getD mesh.materialIndex (-1) < 0 →
      ∀ reg, regs.getD (m2s.getD mesh.materialIndex (-1)).toNat default = reg →
      reg.w ≠ 0 → reg.h ≠ 0 →
      (((remapUVs meshes M m2s regs aw ah).getD i default).uv
          = mesh.uv.map (List.map fun p =>
              ((reg.x : ℚ) / (aw : ℚ) + p.1 * ((reg.w : ℚ) / (aw : ℚ)),
               (reg.y : ℚ) / (ah : ℚ) + p.2.1 * ((reg.h : ℚ) / (ah : ℚ)),
               p.2.2))) ∧
      ∀ p : ℚ × ℚ × ℚ, 0 ≤ p.1 → p.1 ≤ 1 → 0 ≤ p.2.1 → p.2.1 ≤ 1 →
        (reg.x : ℚ) / (aw : ℚ)
            ≤ (reg.x : ℚ) / (aw : ℚ) + p.1 * ((reg.w : ℚ) / (aw : ℚ)) ∧
        (reg.x : ℚ) / (aw : ℚ) + p.1 * ((reg.w : ℚ) / (aw : ℚ))
            ≤ (reg.x : ℚ) / (aw : ℚ) + (reg.w : ℚ) / (aw : ℚ) ∧
        (reg.y : ℚ) / (ah : ℚ)
            ≤ (reg.y : ℚ) / (ah : ℚ) + p.2.1 * ((reg.h : ℚ) / (ah : ℚ)) ∧
        (reg.y : ℚ) / (ah : ℚ) + p.2.1 * ((reg.h : ℚ) / (ah : ℚ))
            ≤ (reg.y : ℚ) / (ah : ℚ) + (reg.h : ℚ) / (ah : ℚ) := by
  constructor
  · have hnemem : ∀ u ∈ activeTypes refs, typeSrcIdxs refs u ≠ [] :=
      fun u hu => typeSrcIdxs_ne_of_mem_active refs u hu
    have hall := processTypes_all_good srcs refs opts (activeTypes refs)
      ⟨scene.materials, [], [], [], none⟩ hnemem hgood
    unfold buildAtlas
    rw [hcol]
    dsimp only
    rw [if_neg hne]
    rcases hpt : processTypes srcs refs opts (activeTypes refs)
        ⟨scene.materials, [], [], [], none⟩ with ⟨st, oe⟩
    rw [hpt] at hall
    have hoe : oe = none := hall.1
    subst hoe
    dsimp only
    have hd : st.diffuse = some (diffuseData srcs refs) := by
      have h5 := hall.2.2.2.2
      rw [if_pos ⟨hdiff, rfl⟩] at h5
      exact h5
    have hlen : st.mats.length = scene.materials.length := by
      have h4 := hall.2.2.2.1
      have h4' : st.mats = (activeTypes refs).foldl
          (fun ms u => updateSlotsForType refs u (atlasFilename u) ms) scene.materials := h4
      rw [h4']
      exact (foldTypes_shape refs (activeTypes refs) scene.materials).1
    rw [hd]
    dsimp only [diffuseData]
    rw [hlen]
  · intro meshes M m2s regs aw ah i hi mesh hmesh hM hsi reg hreg hw hh
    have hbranch : (remapUVs meshes M m2s regs aw ah).getD i default
        = { mesh with uv := mesh.uv.map (List.map fun p =>
              ((reg.x : ℚ) / (aw : ℚ) + p.1 * ((reg.w : ℚ) / (aw : ℚ)),
               (reg.y : ℚ) / (ah : ℚ) + p.2.1 * ((reg.h : ℚ) / (ah : ℚ)),
               p.2.2)) } := by
      unfold remapUVs
      rw [getD_map default default _ meshes i hi, hmesh]
      rw [if_neg (not_le.2 hM)]
      dsimp only
      rw [if_neg hsi]
      rw [hreg]
      rw [if_neg (fun hcon => hcon.elim hw hh)]
    constructor
    · rw [hbranch]
    · intro p h0u h1u h0v h1v
      have hus : (0 : ℚ) ≤ (reg.w : ℚ) / (aw : ℚ) :=
        div_nonneg (Nat.cast_nonneg _) (Nat.cast_nonneg _)
      have hvs : (0 : ℚ) ≤ (reg.h : ℚ) / (ah : ℚ) :=
        div_nonneg (Nat.cast_nonneg _) (Nat.cast_nonneg _)
      have hu1 : (0 : ℚ) ≤ p.1 * ((reg.w : ℚ) / (aw : ℚ)) := mul_nonneg h0u hus
      have hu2 : p.1 * ((reg.w : ℚ) / (aw : ℚ)) ≤ (reg.w : ℚ) / (aw : ℚ) :=
        mul_le_of_le_one_left hus h1u
      have hv1 : (0 : ℚ) ≤ p.2.1 * ((reg.h : ℚ) / (ah : ℚ)) := mul_nonneg h0v hvs
      have hv2 : p.2.1 * ((reg.h : ℚ) / (ah : ℚ)) ≤ (reg.h : ℚ) / (ah : ℚ) :=
        mul_le_of_le_one_left hvs h1v
      exact ⟨by linarith, by linarith, by linarith, by linarith⟩

/-- A scene with one mesh whose single UV channel holds `(1/2, 1/2, 7)`, one
material with an embedded diffuse slot, and one 1x1 embedded texture. -/
def uvScene : Scene :=
  ⟨[⟨4, [], none, none, none, [[(1/2, 1/2, 7)]], [], [], 0, []⟩],
    [⟨[[⟨"*0", 0, 0⟩]]⟩], [⟨.argb 1 1 [(1, 2, 3, 4)], "png", "t0.png"⟩]⟩

/-- C8, witness: the UV remap theorem applied to the one-mesh scene. -/
theorem uv_remap_inside_region_witness :
    (collectSources uvScene ⟨"m", "o"⟩ [] = .ok (atlasSrcs, atlasRefs)) ∧
    (((buildAtlas uvScene ⟨"m", "o"⟩ []).scene.meshes
        = remapUVs uvScene.meshes uvScene.materials.length
            (matToDiffuseSrc uvScene.materials.length atlasRefs)
            (diffuseData atlasSrcs atlasRefs).2.2 (diffuseData atlasSrcs atlasRefs).1
            (diffuseData atlasSrcs atlasRefs).2.1) ∧
      ∀ (meshes : List Mesh) (M : Nat) (m2s : List Int) (regs : List Region) (aw ah : Nat)
        (i : Nat), i < meshes.length →
        ∀ mesh, meshes.getD i default = mesh →
        mesh.materialIndex < M →
        ¬ m2s.getD mesh.materialIndex (-1) < 0 →
        ∀ reg, regs.getD (m2s.getD mesh.materialIndex (-1)).toNat default = reg →
        reg.w ≠ 0 → reg.h ≠ 0 →
        (((remapUVs meshes M m2s regs aw ah).getD i default).uv
            = mesh.uv.map (List.map fun p =>
                ((reg.x : ℚ) / (aw : ℚ) + p.1 * ((reg.w : ℚ) / (aw : ℚ)),
                 (reg.y : ℚ) / (ah : ℚ) + p.2.1 * ((reg.h : ℚ) / (ah : ℚ)),
                 p.2.2))) ∧
        ∀ p : ℚ × ℚ × ℚ, 0 ≤ p.1 → p.1 ≤ 1 → 0 ≤ p.2.1 → p.2.1 ≤ 1 →
          (reg.x : ℚ) / (aw : ℚ)
              ≤ (reg.x : ℚ) / (aw : ℚ) + p.1 * ((reg.w : ℚ) / (aw : ℚ)) ∧
          (reg.x : ℚ) / (aw : ℚ) + p.1 * ((reg.w : ℚ) / (aw : ℚ))
              ≤ (reg.x : ℚ) / (aw : ℚ) + (reg.w : ℚ) / (aw : ℚ) ∧
          (reg.y : ℚ) / (ah : ℚ)
              ≤ (reg.y : ℚ) / (ah : ℚ) + p.2.1 * ((reg.h : ℚ) / (ah : ℚ)) ∧
          (reg.y : ℚ) / (ah : ℚ) + p.2.1 * ((reg.h : ℚ) / (ah : ℚ))
              ≤ (reg.y : ℚ) / (ah : ℚ) + (reg.h : ℚ) / (ah : ℚ)) :=
  ⟨by decide,
    uv_remap_inside_region uvScene ⟨"m", "o"⟩ [] atlasSrcs atlasRefs
      (by decide) (by decide) (by decide) (by decide)⟩

end Lodgen
